import Mathlib

/-!
Verification of the hybrid-memory layer (GraphStore + ScratchpadStore).

This file is a shallow embedding of the two core components of the
repository:

* `ScratchpadStore` (src/warnerco/backend/app/adapters/scratchpad_store.py)
  together with its value types (src/warnerco/backend/app/models/scratchpad.py);
* `GraphStore` (src/warnerco/backend/app/adapters/graph_store.py)
  together with its value types (src/warnerco/backend/app/models/graph.py).

Modelling conventions:

* Timestamps (`created_at`, `expires_at`, `now`) are integers; the Python
  code stores ISO-8601 strings produced by one monotone clock and compares
  them with `<`/`min`/`sort`, for which integer time is a faithful image
  (lexicographic order on ISO strings from one clock = chronological order).
* Token counting (`tiktoken` / the word-estimate fallback of
  `_count_tokens`) is an abstract capability `count : String → Nat`
  supplied in the configuration; the source's special case
  `if not text: return 0` is kept explicitly.
* The LLM minimizer and enricher are abstract oracles
  (`Option String`-valued): `none` models "not configured, or the call
  raised" (both take the same fallback path in the source), `some m`
  models a successful call whose stripped response text is `m`.
* Python dicts are association lists in insertion order; overwriting a
  key keeps its position, inserting a fresh key appends.  JSON metadata
  dictionaries are modelled as `List (String × String)`; `json.dumps`
  followed by `json.loads` is the identity on this image.
* Python truthiness tests (`if subject:`, `token_budget or default`,
  `if entity.metadata:`) are modelled exactly: `None` and the empty
  string / empty dict / `0` are falsy.
-/

/-- JSON-object metadata dictionaries (`Optional[Dict]` in the models). -/
abbrev Meta := List (String × String)

/-- Python `str.split()` with no arguments: split on whitespace runs,
dropping empty pieces. -/
def pySplit (s : String) : List String :=
  (s.split (fun c => c.isWhitespace)).filter (fun w => w != "")

/-- Python truthiness of an `Optional[str]`: `None` and `""` are falsy. -/
def pyTruthyStr : Option String → Bool
  | some x => x != ""
  | none => false

/-- Python truthiness of an `Optional[Dict]`: `None` and `{}` are falsy. -/
def pyTruthyMeta : Option Meta → Bool
  | some m => m != []
  | none => false

-- =========================================================================
-- Scratchpad value types (app/models/scratchpad.py)
-- =========================================================================

/-- The closed predicate vocabulary `VALID_SCRATCHPAD_PREDICATES`
(values of `SCRATCHPAD_PREDICATES`, in source order). -/
def VALID_SCRATCHPAD_PREDICATES : List String :=
  ["observed", "inferred", "relevant_to", "summarized_as",
   "contradicts", "supersedes", "depends_on"]

/-- `sorted(VALID_SCRATCHPAD_PREDICATES)` as used in the invalid-predicate
message of `ScratchpadStore.write`. -/
def sortedScratchpadPredicates : List String :=
  ["contradicts", "depends_on", "inferred", "observed",
   "relevant_to", "summarized_as", "supersedes"]

/-- `ScratchpadEntry` (app/models/scratchpad.py). -/
structure ScratchpadEntry where
  id : String
  subject : String
  predicate : String
  object : String
  content : String
  original_content : Option String
  original_tokens : Nat
  minimized_tokens : Nat
  enriched_content : Option String
  created_at : Int
  expires_at : Int
  metadata : Option Meta
deriving DecidableEq, Repr

/-- `ScratchpadWriteResult` (app/models/scratchpad.py). -/
structure ScratchpadWriteResult where
  success : Bool
  entry : Option ScratchpadEntry
  tokens_saved : Int
  message : String
deriving DecidableEq, Repr

/-- `ScratchpadReadResult` (app/models/scratchpad.py). -/
structure ScratchpadReadResult where
  entries : List ScratchpadEntry
  total : Nat
  enriched_count : Nat
deriving DecidableEq, Repr

/-- `ScratchpadClearResult` (app/models/scratchpad.py). -/
structure ScratchpadClearResult where
  cleared_count : Nat
  message : String
deriving DecidableEq, Repr

-- =========================================================================
-- ScratchpadStore (app/adapters/scratchpad_store.py)
-- =========================================================================

/-- The immutable configuration of a `ScratchpadStore` (`_max_tokens`,
`_entry_ttl_minutes`, `_inject_budget`) plus the token-counting
capability (`_encoding` / the fallback estimator of `_count_tokens`). -/
structure ScratchpadConfig where
  max_tokens : Nat
  entry_ttl_minutes : Int
  inject_budget : Nat
  count : String → Nat

/-- The mutable state of a `ScratchpadStore`: the entry dict
`_entries` (values in insertion order) and `_enrichment_cache`. -/
structure ScratchpadState where
  entries : List ScratchpadEntry
  enrichment_cache : List (String × String)

namespace ScratchpadStore

/-- `ScratchpadStore._count_tokens`: `0` on empty text, otherwise the
counting capability. -/
def count_tokens (cfg : ScratchpadConfig) (text : String) : Nat :=
  if text = "" then 0 else cfg.count text

/-- `ScratchpadStore._is_expired`: `now > expires_at` (the ISO parse in
the source always succeeds for timestamps the store itself wrote). -/
def is_expired (now : Int) (e : ScratchpadEntry) : Bool :=
  decide (e.expires_at < now)

/-- `ScratchpadStore._cleanup_expired`: collect the ids of expired
entries, then delete those ids from the entry dict and the enrichment
cache. -/
def cleanup_expired (now : Int) (s : ScratchpadState) : ScratchpadState :=
  let expired_ids := (s.entries.filter (fun e => is_expired now e)).map (fun e => e.id)
  { entries := s.entries.filter (fun e => !(expired_ids.contains e.id)),
    enrichment_cache := s.enrichment_cache.filter (fun kv => !(expired_ids.contains kv.1)) }

/-- `ScratchpadStore._current_token_usage`: sum of `minimized_tokens`. -/
def sumTokens (l : List ScratchpadEntry) : Nat :=
  (l.map (fun e => e.minimized_tokens)).sum

/-- `min(entries, key=lambda e: e.created_at)` over a nonempty dict-value
list: Python `min` keeps the earliest element among ties. -/
def oldestEntry (e : ScratchpadEntry) (l : List ScratchpadEntry) : ScratchpadEntry :=
  l.foldl (fun acc x => if x.created_at < acc.created_at then x else acc) e

/-- The `while` loop of `ScratchpadStore._enforce_token_budget`.
`fuel` bounds the number of iterations; every iteration deletes the
oldest entry (an element of the list), so starting the loop with
`fuel = entries.length` never exhausts the fuel before the loop's own
exit conditions fire (see `evictLoop_fuel_irrelevant`). -/
def evictLoop (maxT needed : Nat) :
    Nat → List ScratchpadEntry → List (String × String) → Nat → Nat →
    Nat × List ScratchpadEntry × List (String × String)
  | 0, entries, cache, _, evicted => (evicted, entries, cache)
  | _ + 1, [], cache, _, evicted => (evicted, [], cache)
  | fuel + 1, e :: rest, cache, current, evicted =>
    if maxT < current + needed then
      let oldest := oldestEntry e rest
      evictLoop maxT needed fuel
        ((e :: rest).filter (fun x => x.id != oldest.id))
        (cache.filter (fun kv => kv.1 != oldest.id))
        (current - oldest.minimized_tokens) (evicted + 1)
    else (evicted, e :: rest, cache)

/-- `ScratchpadStore._enforce_token_budget`: evict oldest entries until
`current_usage + needed ≤ max_tokens` or no entries remain; returns the
eviction count and the surviving entries/cache. -/
def enforce_token_budget (cfg : ScratchpadConfig) (needed : Nat) (s : ScratchpadState) :
    Nat × List ScratchpadEntry × List (String × String) :=
  evictLoop cfg.max_tokens needed s.entries.length s.entries s.enrichment_cache
    (sumTokens s.entries) 0

/-- `ScratchpadStore._minimize_content`.  `llm = some m` models a
successful minimization call answering `m` (already stripped); `llm =
none` models "no LLM configured" or a raised exception — both fall
through to the deterministic fallback.  `int(len(words) * 0.75)` is
`3 * n / 4` (the product with the dyadic 0.75 is exact, `int` floors). -/
def minimize_content (cfg : ScratchpadConfig) (llm : Option String) (content : String) :
    String × Nat × Nat :=
  let original_tokens := count_tokens cfg content
  let fallback :=
    if 50 < original_tokens then
      let words := pySplit content
      let target_words := words.length * 3 / 4
      let truncated := String.intercalate " " (words.take target_words)
      (truncated, original_tokens, count_tokens cfg truncated)
    else (content, original_tokens, original_tokens)
  match llm with
  | some minimized =>
    if count_tokens cfg minimized < original_tokens then
      (minimized, original_tokens, count_tokens cfg minimized)
    else fallback
  | none => fallback

/-- `self._entries[entry.id] = entry` on a Python dict: overwriting an
existing key keeps its position, a fresh key is appended. -/
def dictInsert (l : List ScratchpadEntry) (e : ScratchpadEntry) : List ScratchpadEntry :=
  if l.any (fun x => x.id == e.id) then l.map (fun x => if x.id == e.id then e else x)
  else l ++ [e]

/-- `ScratchpadStore.write`.  `new_id` stands for the generated
`_generate_id()` value; `now` is the single `datetime.now(...)` reading
(creation time; `_get_expiration` adds the TTL to it). -/
def write (cfg : ScratchpadConfig) (llm : Option String) (now : Int) (new_id : String)
    (s : ScratchpadState) (subject predicate object content : String)
    (minimize : Bool) (metadata : Option Meta) :
    ScratchpadWriteResult × ScratchpadState :=
  if !(VALID_SCRATCHPAD_PREDICATES.contains predicate) then
    ({ success := false, entry := none, tokens_saved := 0,
       message := "Invalid predicate \x27" ++ predicate ++ "\x27. Must be one of: " ++
         String.intercalate ", " sortedScratchpadPredicates }, s)
  else
    let s1 := cleanup_expired now s
    let mza :=
      if minimize then minimize_content cfg llm content
      else (content, count_tokens cfg content, count_tokens cfg content)
    let minimized_content := mza.1
    let original_tokens := mza.2.1
    let minimized_tokens := mza.2.2
    let ev := enforce_token_budget cfg minimized_tokens s1
    let entry : ScratchpadEntry :=
      { id := new_id, subject := subject, predicate := predicate, object := object,
        content := minimized_content,
        original_content :=
          if minimize && minimized_content != content then some content else none,
        original_tokens := original_tokens, minimized_tokens := minimized_tokens,
        enriched_content := none,
        created_at := now, expires_at := now + cfg.entry_ttl_minutes,
        metadata := metadata }
    let tokens_saved : Int := (original_tokens : Int) - (minimized_tokens : Int)
    ({ success := true, entry := some entry, tokens_saved := tokens_saved,
       message :=
         if 0 < tokens_saved then
           "Stored entry (saved " ++ toString tokens_saved ++ " tokens)"
         else "Stored entry" },
     { entries := dictInsert ev.2.1 entry, enrichment_cache := ev.2.2 })

/-- `cache[k] = v` on the enrichment cache dict. -/
def cacheUpsert (cache : List (String × String)) (k v : String) : List (String × String) :=
  if cache.any (fun kv => kv.1 == k) then cache.map (fun kv => if kv.1 == k then (k, v) else kv)
  else cache ++ [(k, v)]

/-- `ScratchpadStore._enrich_content` for one entry: cache hit wins;
otherwise `expander e = some t` models a successful LLM expansion
(cached), `none` models "no LLM configured" or a raised exception (the
original `content` is returned and nothing is cached).  The
`query_context` argument of the source only feeds the LLM prompt and is
absorbed into the oracle. -/
def enrich_content (expander : ScratchpadEntry → Option String)
    (cache : List (String × String)) (e : ScratchpadEntry) :
    String × List (String × String) :=
  match cache.find? (fun kv => kv.1 == e.id) with
  | some kv => (kv.2, cache)
  | none =>
    match expander e with
    | some enriched => (enriched, cacheUpsert cache e.id enriched)
    | none => (e.content, cache)

/-- The enrichment loop of `ScratchpadStore.read`: each matched entry
gets `enriched_content` assigned and `enriched_count` is incremented,
threading the cache left to right. -/
def enrichPass (expander : ScratchpadEntry → Option String) :
    List (String × String) → List ScratchpadEntry →
    List ScratchpadEntry × List (String × String) × Nat
  | cache, [] => ([], cache, 0)
  | cache, e :: rest =>
    let hd := enrich_content expander cache e
    let tl := enrichPass expander hd.2 rest
    ({ e with enriched_content := some hd.1 } :: tl.1, tl.2.1, tl.2.2 + 1)

/-- Stable descending insertion by `created_at`: the inserted element
goes before the first element that is not strictly newer. -/
def insertByCreatedDesc (e : ScratchpadEntry) : List ScratchpadEntry → List ScratchpadEntry
  | [] => [e]
  | x :: xs =>
    if x.created_at ≤ e.created_at then e :: x :: xs else x :: insertByCreatedDesc e xs

/-- `entries.sort(key=lambda e: e.created_at, reverse=True)` /
`sorted(..., reverse=True)`: a stable descending sort by `created_at`
(Python's sort is stable; this insertion sort keeps equal keys in their
original relative order too). -/
def sortByCreatedDesc : List ScratchpadEntry → List ScratchpadEntry
  | [] => []
  | e :: xs => insertByCreatedDesc e (sortByCreatedDesc xs)

/-- `ScratchpadStore.read`.  In the source the enrichment loop mutates
the shared entry objects, so the store's own entries see the new
`enriched_content` as well; the state returned here reflects that. -/
def read (cfg : ScratchpadConfig) (expander : ScratchpadEntry → Option String) (now : Int)
    (s : ScratchpadState) (subject predicate : Option String) (enrich : Bool) :
    ScratchpadReadResult × ScratchpadState :=
  let _ := cfg
  let s1 := cleanup_expired now s
  let es0 := s1.entries
  let es1 := match subject with
    | some subj => if subj != "" then es0.filter (fun e => e.subject == subj) else es0
    | none => es0
  let es2 := match predicate with
    | some p => if p != "" then es1.filter (fun e => e.predicate == p) else es1
    | none => es1
  let es3 := sortByCreatedDesc es2
  if enrich then
    let pass := enrichPass expander s1.enrichment_cache es3
    ({ entries := pass.1, total := pass.1.length, enriched_count := pass.2.2 },
     { entries := s1.entries.map (fun e0 => ((pass.1.find? (fun p => p.id == e0.id)).getD e0)),
       enrichment_cache := pass.2.1 })
  else
    ({ entries := es3, total := es3.length, enriched_count := 0 }, s1)

/-- The `should_clear` decision of `ScratchpadStore.clear` for one entry
(`if subject and entry.subject == subject: … elif cutoff_time: … elif
not subject and older_than_minutes is None: …`).  Note the Python
truthiness: an empty-string `subject` is falsy. -/
def should_clear (subject : Option String) (older_than_minutes : Option Int)
    (cutoff : Option Int) (e : ScratchpadEntry) : Bool :=
  if pyTruthyStr subject && (e.subject == subject.getD "") then true
  else if cutoff.isSome then decide (e.created_at < cutoff.getD 0)
  else if !pyTruthyStr subject && older_than_minutes.isNone then true
  else false

/-- `ScratchpadStore.clear`: collect the ids to clear, then delete them
from the entry dict and the enrichment cache. -/
def clear (now : Int) (s : ScratchpadState) (subject : Option String)
    (older_than_minutes : Option Int) : ScratchpadClearResult × ScratchpadState :=
  let cutoff : Option Int := older_than_minutes.map (fun m => now - m)
  let to_clear := (s.entries.filter (should_clear subject older_than_minutes cutoff)).map
    (fun e => e.id)
  ({ cleared_count := to_clear.length,
     message := "Cleared " ++ toString to_clear.length ++ " entries" },
   { entries := s.entries.filter (fun e => !(to_clear.contains e.id)),
     enrichment_cache := s.enrichment_cache.filter (fun kv => !(to_clear.contains kv.1)) })

/-- `"[{predicate}] {subject} -> {object_}: {content}"`. -/
def formatLine (e : ScratchpadEntry) : String :=
  "[" ++ e.predicate ++ "] " ++ e.subject ++ " -> " ++ e.object ++ ": " ++ e.content

/-- The greedy accumulation loop of `get_context_for_injection`:
append while the running total stays within budget, `break` at the
first line that would overflow. -/
def greedyLines (cfg : ScratchpadConfig) (budget : Int) :
    List ScratchpadEntry → Nat → List String × Nat
  | [], total => ([], total)
  | e :: rest, total =>
    let line_tokens := count_tokens cfg (formatLine e)
    if (total : Int) + (line_tokens : Int) ≤ budget then
      let next := greedyLines cfg budget rest (total + line_tokens)
      (formatLine e :: next.1, next.2)
    else ([], total)

/-- `ScratchpadStore.get_context_for_injection`.  `budget =
token_budget or self._inject_budget` uses Python truthiness: `None`
and `0` both select the configured default. -/
def get_context_for_injection (cfg : ScratchpadConfig) (now : Int) (s : ScratchpadState)
    (token_budget : Option Int) : List String × Nat :=
  let budget : Int := match token_budget with
    | some b => if b != 0 then b else (cfg.inject_budget : Int)
    | none => (cfg.inject_budget : Int)
  let s1 := cleanup_expired now s
  greedyLines cfg budget (sortByCreatedDesc s1.entries) 0

/-- Well-formedness of a scratchpad state: entry ids are pairwise
distinct (they are the keys of the `_entries` dict) and so are the
cache keys.  Every reachable state of the store satisfies this. -/
def WF (s : ScratchpadState) : Prop :=
  (s.entries.map (fun e => e.id)).Nodup ∧ (s.enrichment_cache.map (fun kv => kv.1)).Nodup

instance (s : ScratchpadState) : Decidable (WF s) := by
  unfold WF; infer_instance

end ScratchpadStore

-- =========================================================================
-- Graph value types (app/models/graph.py)
-- =========================================================================

/-- `Entity` (app/models/graph.py). -/
structure Entity where
  id : String
  entity_type : String
  name : String
  metadata : Option Meta
deriving DecidableEq, Repr

/-- `Relationship` (app/models/graph.py).  The autoincrement row id and
`created_at` column of the `triplets` table are not consulted by any
operation modelled here and are omitted from the row image. -/
structure Relationship where
  subject : String
  predicate : String
  object : String
  metadata : Option Meta
deriving DecidableEq, Repr

/-- `GraphStats` (app/models/graph.py); the two histograms are
association lists (`dict[str, int]`). -/
structure GraphStats where
  entity_count : Nat
  relationship_count : Nat
  entity_types : List (String × Nat)
  predicate_counts : List (String × Nat)
deriving DecidableEq, Repr

-- =========================================================================
-- The NetworkX mirror (`self._graph : nx.DiGraph`)
-- =========================================================================

/-- A NetworkX `DiGraph`: nodes with attribute dicts and directed edges
keyed by the `(u, v)` pair with attribute dicts. -/
structure NXGraph where
  nodes : List (String × Meta)
  edges : List ((String × String) × Meta)
deriving DecidableEq, Repr

/-- `d[k] = v` on an attribute dict. -/
def metaUpsert (m : Meta) (k v : String) : Meta :=
  if m.any (fun kv => kv.1 == k) then m.map (fun kv => if kv.1 == k then (k, v) else kv)
  else m ++ [(k, v)]

/-- Python `dict.update`: right operand's pairs overwrite/extend the left. -/
def mergeAttrs (old new : Meta) : Meta :=
  new.foldl (fun acc kv => metaUpsert acc kv.1 kv.2) old

/-- `G.add_node(id, **attrs)`: update the attribute dict of an existing
node, or append a fresh node. -/
def NXGraph.addNode (g : NXGraph) (id : String) (attrs : Meta) : NXGraph :=
  if g.nodes.any (fun n => n.1 == id) then
    { g with nodes := g.nodes.map (fun n => if n.1 == id then (n.1, mergeAttrs n.2 attrs) else n) }
  else { g with nodes := g.nodes ++ [(id, attrs)] }

/-- NetworkX auto-creates missing endpoint nodes (with empty attribute
dicts) when an edge is added. -/
def NXGraph.ensureNode (g : NXGraph) (id : String) : NXGraph :=
  if g.nodes.any (fun n => n.1 == id) then g
  else { g with nodes := g.nodes ++ [(id, [])] }

/-- `G.add_edge(u, v, **attrs)`: ensure both endpoints exist, then
update the `(u, v)` edge's attribute dict or append a fresh edge. -/
def NXGraph.addEdge (g : NXGraph) (u v : String) (attrs : Meta) : NXGraph :=
  let g1 := (g.ensureNode u).ensureNode v
  if g1.edges.any (fun ed => ed.1.1 == u && ed.1.2 == v) then
    { g1 with
      edges := g1.edges.map (fun ed =>
        if ed.1.1 == u && ed.1.2 == v then (ed.1, mergeAttrs ed.2 attrs) else ed) }
  else { g1 with edges := g1.edges ++ [((u, v), attrs)] }

/-- The node-id list of the mirror (membership models `x in self._graph`). -/
def nodeIds (g : NXGraph) : List String := g.nodes.map (fun n => n.1)

-- =========================================================================
-- GraphStore (app/adapters/graph_store.py)
-- =========================================================================

/-- The state of a `GraphStore`: the SQLite connection flag
(`self._conn is None` after `close()` makes every operation degrade),
the two durable tables, and the NetworkX mirror. -/
structure GraphStoreState where
  conn_ok : Bool
  db_entities : List Entity
  db_triplets : List Relationship
  graph : NXGraph
deriving DecidableEq, Repr

/-- A store freshly initialized over an empty database. -/
def emptyGraphStore : GraphStoreState :=
  { conn_ok := true, db_entities := [], db_triplets := [], graph := { nodes := [], edges := [] } }

namespace GraphStore

/-- The id column of the durable `entities` table. -/
def rowIds (st : GraphStoreState) : List String := st.db_entities.map (fun r => r.id)

/-- `GraphStore.add_entity`: `INSERT OR REPLACE` into `entities`
(metadata serialized only when truthy — `json.dumps(m) if m else None`),
then `add_node` on the mirror with `entity_type`/`name` plus the truthy
metadata merged in.  Returns `True` unless the connection is gone. -/
def add_entity (st : GraphStoreState) (e : Entity) : Bool × GraphStoreState :=
  if !st.conn_ok then (false, st)
  else
    let row : Entity := { e with metadata := if pyTruthyMeta e.metadata then e.metadata else none }
    let db' :=
      if st.db_entities.any (fun r => r.id == e.id) then
        st.db_entities.map (fun r => if r.id == e.id then row else r)
      else st.db_entities ++ [row]
    let node_attrs := mergeAttrs [("entity_type", e.entity_type), ("name", e.name)]
      (if pyTruthyMeta e.metadata then e.metadata.getD [] else [])
    (true, { st with db_entities := db', graph := st.graph.addNode e.id node_attrs })

/-- `GraphStore.add_relationship`: `INSERT OR IGNORE` into `triplets`
(unique on `(subject, predicate, object)`), then `add_edge` on the
mirror; returns `cursor.rowcount > 0`, i.e. whether a new row was
persisted. -/
def add_relationship (st : GraphStoreState) (rel : Relationship) : Bool × GraphStoreState :=
  if !st.conn_ok then (false, st)
  else
    let dup := st.db_triplets.any (fun r =>
      r.subject == rel.subject && r.predicate == rel.predicate && r.object == rel.object)
    let row : Relationship := { rel with metadata := if pyTruthyMeta rel.metadata then rel.metadata else none }
    let db' := if dup then st.db_triplets else st.db_triplets ++ [row]
    let edge_attrs := mergeAttrs [("predicate", rel.predicate)]
      (if pyTruthyMeta rel.metadata then rel.metadata.getD [] else [])
    (!dup, { st with db_triplets := db', graph := st.graph.addEdge rel.subject rel.object edge_attrs })

/-- `GraphStore.get_entity`: row lookup by primary key;
`json.loads(row["metadata"]) if row["metadata"] else None`. -/
def get_entity (st : GraphStoreState) (entity_id : String) : Option Entity :=
  if !st.conn_ok then none
  else (st.db_entities.find? (fun r => r.id == entity_id)).map
    (fun r => { id := r.id, entity_type := r.entity_type, name := r.name, metadata := r.metadata })

/-- `SELECT entity_type, COUNT(*) ... GROUP BY entity_type` (and the
same for predicates): one `(value, count)` pair per distinct value. -/
def groupCounts (l : List String) : List (String × Nat) :=
  l.dedup.map (fun t => (t, l.count t))

/-- `GraphStore.stats`: node/edge counts come from the NetworkX mirror,
the two histograms from the durable tables. -/
def stats (st : GraphStoreState) : GraphStats :=
  if !st.conn_ok then { entity_count := 0, relationship_count := 0, entity_types := [], predicate_counts := [] }
  else
    { entity_count := st.graph.nodes.length,
      relationship_count := st.graph.edges.length,
      entity_types := groupCounts (st.db_entities.map (fun r => r.entity_type)),
      predicate_counts := groupCounts (st.db_triplets.map (fun r => r.predicate)) }

-- =========================================================================
-- shortest_path (models `nx.shortest_path(self._graph.to_undirected(), …)`)
-- =========================================================================

/-- Adjacency of the undirected view `G.to_undirected()`: an edge in
either direction. -/
def uAdj (g : NXGraph) (u v : String) : Bool :=
  g.edges.any (fun ed => (ed.1.1 == u && ed.1.2 == v) || (ed.1.1 == v && ed.1.2 == u))

/-- Neighbors of `c` in the undirected view. -/
def uNeighbors (g : NXGraph) (c : String) : List String :=
  (g.edges.filterMap (fun ed => if ed.1.1 == c then some ed.1.2 else none)) ++
  (g.edges.filterMap (fun ed => if ed.1.2 == c then some ed.1.1 else none))

/-- All reversed walks of exactly `k` undirected hops starting at `s`
(head of each list = current endpoint, last element = `s`). -/
def rwalks (g : NXGraph) (s : String) : Nat → List (List String)
  | 0 => [[s]]
  | k + 1 => (rwalks g s k).flatMap (fun w =>
      match w with
      | [] => []
      | c :: _ => (uNeighbors g c).map (fun v => v :: w))

/-- First `some` value of `f` on `start, start+1, …` (at most `fuel`
probes). -/
def firstSomeFrom {α : Type} (f : Nat → Option α) : Nat → Nat → Option α
  | _, 0 => none
  | start, fuel + 1 =>
    match f start with
    | some y => some y
    | none => GraphStore.firstSomeFrom f (start + 1) fuel

/-- `GraphStore.shortest_path`.  The source guards membership of both
endpoints, then calls `nx.shortest_path` on the undirected view — a
third-party unweighted breadth-first search whose documented behaviour
is to return a minimum-hop path, or raise `NetworkXNoPath` (mapped to
`None`) when the endpoints are not connected.  The model computes the
same value by iterative deepening: the first hop count `k` (from `0`
up to `|nodes| - 1`, enough for any shortest path) at which some walk
from `source` reaches `target`, returning that walk. -/
def shortest_path (st : GraphStoreState) (source target : String) : Option (List String) :=
  if !((nodeIds st.graph).contains source) || !((nodeIds st.graph).contains target) then none
  else
    firstSomeFrom
      (fun k => ((rwalks st.graph source k).find? (fun w => w.head? == some target)).map
        List.reverse)
      0 (nodeIds st.graph).length

-- =========================================================================
-- index_schematics
-- =========================================================================

end GraphStore

/-- One record of `schematics.json` as consumed by `index_schematics`:
`id`, `model`, `name`, `component`, `version` are accessed with `[...]`
(required), the rest with `.get(..., default)`. -/
structure Schematic where
  id : String
  model : String
  name : String
  component : String
  version : String
  status : Option String
  category : Option String
  summary : Option String
  tags : List String
deriving DecidableEq, Repr

/-- Python `str.title()` (ASCII image): first letter of every
alphabetic run uppercased, the rest lowercased. -/
def pyTitleAux : Bool → List Char → List Char
  | _, [] => []
  | prevAlpha, c :: cs =>
    if c.isAlpha then (if prevAlpha then c.toLower else c.toUpper) :: pyTitleAux true cs
    else c :: pyTitleAux false cs

/-- Python `str.title()`. -/
def pyTitle (s : String) : String := ⟨pyTitleAux false s.data⟩

/-- Leading-match of character lists (`needle` starts `hay`). -/
def leadMatch : List Char → List Char → Bool
  | [], _ => true
  | _ :: _, [] => false
  | a :: as, b :: bs => a == b && leadMatch as bs

/-- Substring test on character lists. -/
def subMatch (needle : List Char) : List Char → Bool
  | [] => leadMatch needle []
  | h :: t => leadMatch needle (h :: t) || subMatch needle t

/-- Python `needle in hay` on strings. -/
def strContains (hay needle : String) : Bool := subMatch needle.data hay.data

/-- The inline `component_keywords` table of `index_schematics`
(Python dict in insertion order). -/
def component_keywords : List (String × String) :=
  [("hydraulic", "hydraulic_system"), ("sensor", "sensor_array"),
   ("motor", "motor_system"), ("battery", "power_system"),
   ("thermal", "thermal_system"), ("lidar", "lidar_system"),
   ("camera", "vision_system"), ("wireless", "communication_system"),
   ("safety", "safety_system"), ("gripper", "manipulation_system"),
   ("welding", "welding_system"), ("navigation", "navigation_system")]

/-- One store mutation performed by `index_schematics`. -/
inductive GOp where
  | ent (e : Entity)
  | rel (r : Relationship)
deriving DecidableEq, Repr

/-- A mutation together with its `entities_added` counting rule:
`countAlways = true` for the `seen_entities`-gated entity insertions
(the source increments the counter unconditionally in that branch,
ignoring `add_entity`'s return value); `false` where the source
increments only when the call returns `True`. -/
structure GOpC where
  op : GOp
  countAlways : Bool
deriving DecidableEq, Repr

namespace GraphStore

/-- The `add_entity`/`add_relationship` calls issued for one schematic
record (steps 1–6 of `index_schematics`), in source order, threading
the `seen_entities` set.  The arguments of these calls depend only on
the record and `seen_entities`, never on the store state, which is why
the call sequence can be computed up front. -/
def schematicOps (seen0 : List String) (sch : Schematic) : List GOpC × List String :=
  -- 1. schematic entity
  let e1 : Entity :=
    { id := sch.id, entity_type := "schematic",
      name := sch.model ++ " - " ++ sch.name ++ ": " ++ sch.component,
      metadata := some [("model", sch.model), ("robot_name", sch.name),
                        ("component", sch.component), ("version", sch.version)] }
  let ops1 : List GOpC := [⟨GOp.ent e1, false⟩]
  -- 2. status entity and has_status relationship
  let status := sch.status.getD "active"
  let status_id := "status:" ++ status
  let p2 : List GOpC × List String :=
    if seen0.contains status_id then ([], seen0)
    else ([⟨GOp.ent { id := status_id, entity_type := "status",
                      name := pyTitle status, metadata := none }, true⟩],
          seen0 ++ [status_id])
  let ops2 := p2.1 ++ [⟨GOp.rel { subject := sch.id, predicate := "has_status",
                                  object := status_id, metadata := none }, false⟩]
  -- 3. category entity and has_category relationship
  let category := (sch.category.getD "unknown")
  let category_id := "category:" ++ category
  let p3 : List GOpC × List String :=
    if p2.2.contains category_id then ([], p2.2)
    else ([⟨GOp.ent { id := category_id, entity_type := "category",
                      name := pyTitle (category.replace "_" " "), metadata := none }, true⟩],
          p2.2 ++ [category_id])
  let ops3 := p3.1 ++ [⟨GOp.rel { subject := sch.id, predicate := "has_category",
                                  object := category_id, metadata := none }, false⟩]
  -- 4. model entity and belongs_to_model relationship (only if model truthy)
  let p4 : List GOpC × List String :=
    if sch.model != "" then
      let model_id := "model:" ++ sch.model
      let q : List GOpC × List String :=
        if p3.2.contains model_id then ([], p3.2)
        else ([⟨GOp.ent { id := model_id, entity_type := "model",
                          name := sch.model, metadata := none }, true⟩],
              p3.2 ++ [model_id])
      (q.1 ++ [⟨GOp.rel { subject := sch.id, predicate := "belongs_to_model",
                          object := model_id, metadata := none }, false⟩], q.2)
    else ([], p3.2)
  -- 5. component entities from description keywords
  let summary := (sch.summary.getD "").toLower
  let component_name := sch.component.toLower
  let p5 : List GOpC × List String :=
    component_keywords.foldl (fun acc kw =>
      if strContains summary kw.1 || strContains component_name kw.1 then
        let full_id := "component:" ++ kw.2
        let q : List GOpC × List String :=
          if acc.2.contains full_id then ([], acc.2)
          else ([⟨GOp.ent { id := full_id, entity_type := "component",
                            name := pyTitle (kw.2.replace "_" " "), metadata := none }, true⟩],
                acc.2 ++ [full_id])
        (acc.1 ++ q.1 ++ [⟨GOp.rel { subject := sch.id, predicate := "contains",
                                     object := full_id, metadata := none }, false⟩], q.2)
      else acc) ([], p4.2)
  -- 6. tag entities and has_tag relationships
  let p6 : List GOpC × List String :=
    sch.tags.foldl (fun acc tag =>
      let tag_id := "tag:" ++ tag
      let q : List GOpC × List String :=
        if acc.2.contains tag_id then ([], acc.2)
        else ([⟨GOp.ent { id := tag_id, entity_type := "tag",
                          name := pyTitle (tag.replace "-" " "), metadata := none }, true⟩],
              acc.2 ++ [tag_id])
      (acc.1 ++ q.1 ++ [⟨GOp.rel { subject := sch.id, predicate := "has_tag",
                                   object := tag_id, metadata := none }, false⟩], q.2))
      ([], p5.2)
  (ops1 ++ ops2 ++ ops3 ++ p4.1 ++ p5.1 ++ p6.1, p6.2)

/-- The second pass's `model_schematics` grouping: an insertion-ordered
dict from model to the ids of its schematics. -/
def groupByModel (schematics : List Schematic) : List (String × List String) :=
  schematics.foldl (fun acc sch =>
    if sch.model != "" then
      if acc.any (fun g => g.1 == sch.model) then
        acc.map (fun g => if g.1 == sch.model then (g.1, g.2 ++ [sch.id]) else g)
      else acc ++ [(sch.model, [sch.id])]
    else acc) []

/-- The symmetric `compatible_with` pairs of the second pass
(`for i, sid1 in enumerate(ids): for sid2 in ids[i+1:]`). -/
def compatOps : List String → List GOpC
  | [] => []
  | sid1 :: rest =>
    (rest.flatMap (fun sid2 =>
      [⟨GOp.rel { subject := sid1, predicate := "compatible_with",
                  object := sid2, metadata := none }, false⟩,
       ⟨GOp.rel { subject := sid2, predicate := "compatible_with",
                  object := sid1, metadata := none }, false⟩])) ++ compatOps rest

/-- All mutations of one `index_schematics(schematics)` call, in source
order: per-record steps 1–6 (threading `seen_entities`), then the
second-pass compatibility edges.  A pure function of the input batch. -/
def indexOps (schematics : List Schematic) : List GOpC :=
  let firstPass := schematics.foldl
    (fun (acc : List GOpC × List String) sch =>
      let so := schematicOps acc.2 sch
      (acc.1 ++ so.1, so.2))
    (([] : List GOpC), ([] : List String))
  firstPass.1 ++ (groupByModel schematics).flatMap (fun g => compatOps g.2)

/-- Perform one mutation. -/
def applyGOp (st : GraphStoreState) : GOp → Bool × GraphStoreState
  | GOp.ent e => add_entity st e
  | GOp.rel r => add_relationship st r

/-- Perform a mutation list, accumulating `entities_added` and
`relationships_added` under the counting rules carried by each op. -/
def runGOps : GraphStoreState → List GOpC → GraphStoreState × Nat × Nat
  | st, [] => (st, 0, 0)
  | st, c :: rest =>
    let step := applyGOp st c.op
    let next := runGOps step.2 rest
    match c.op with
    | GOp.ent _ => (next.1, (if c.countAlways || step.1 then 1 else 0) + next.2.1, next.2.2)
    | GOp.rel _ => (next.1, next.2.1, (if step.1 then 1 else 0) + next.2.2)

end GraphStore

/-- The return dict of `index_schematics`. -/
structure IndexResult where
  entities_added : Nat
  relationships_added : Nat
  total_entities : Nat
  total_relationships : Nat
deriving DecidableEq, Repr

namespace GraphStore

/-- `GraphStore.index_schematics`: run the extraction mutations and
report the counters plus `len(self._graph.nodes)` /
`len(self._graph.edges)`. -/
def index_schematics (st : GraphStoreState) (schematics : List Schematic) :
    IndexResult × GraphStoreState :=
  let r := runGOps st (indexOps schematics)
  ({ entities_added := r.2.1, relationships_added := r.2.2,
     total_entities := r.1.graph.nodes.length,
     total_relationships := r.1.graph.edges.length }, r.1)

/-- Invariants of every reachable `GraphStore` state: distinct node
ids (NetworkX node set), distinct row ids (`id` is the primary key of
`entities`), every durable entity row mirrored as a node, nodes
without a durable row carry no attributes (they were auto-created by
`add_edge`), and every edge endpoint is a node. -/
def GraphWF (st : GraphStoreState) : Prop :=
  (nodeIds st.graph).Nodup ∧ (rowIds st).Nodup ∧
  (∀ i ∈ rowIds st, i ∈ nodeIds st.graph) ∧
  (∀ p ∈ st.graph.nodes, p.1 ∉ rowIds st → p.2 = ([] : Meta)) ∧
  (∀ ed ∈ st.graph.edges, ed.1.1 ∈ nodeIds st.graph ∧ ed.1.2 ∈ nodeIds st.graph)

instance (st : GraphStoreState) : Decidable (GraphWF st) := by
  unfold GraphWF; infer_instance

end GraphStore

/-- The `minimized_tokens` value step 3 of `ScratchpadStore.write`
computes for the new entry (standalone, for stating the budget
invariant; definitionally the same expression as in `write`). -/
def ScratchpadStore.needed_tokens (cfg : ScratchpadConfig) (llm : Option String)
    (content : String) (minimize : Bool) : Nat :=
  (if minimize then ScratchpadStore.minimize_content cfg llm content
   else (content, ScratchpadStore.count_tokens cfg content,
         ScratchpadStore.count_tokens cfg content)).2.2

-- =========================================================================
-- Concrete stores used by witnesses and counterexamples
-- =========================================================================

/-- A concrete configuration whose token counter is string length. -/
def cfgLen : ScratchpadConfig :=
  { max_tokens := 10, entry_ttl_minutes := 30, inject_budget := 100,
    count := fun s => s.length }

/-- The empty scratchpad state (a freshly constructed store). -/
def emptySP : ScratchpadState := { entries := [], enrichment_cache := [] }

/-- A three-entry store exercising both halves of the union: subject
"A" old, subject "B" new, subject "B" old. -/
def sClearW : ScratchpadState :=
  { entries :=
      [{ id := "w1", subject := "A", predicate := "observed", object := "o", content := "c",
         original_content := none, original_tokens := 1, minimized_tokens := 1,
         enriched_content := none, created_at := 0, expires_at := 1000, metadata := none },
       { id := "w2", subject := "B", predicate := "observed", object := "o", content := "c",
         original_content := none, original_tokens := 1, minimized_tokens := 1,
         enriched_content := none, created_at := 100, expires_at := 1000, metadata := none },
       { id := "w3", subject := "B", predicate := "observed", object := "o", content := "c",
         original_content := none, original_tokens := 1, minimized_tokens := 1,
         enriched_content := none, created_at := 0, expires_at := 1000, metadata := none }],
    enrichment_cache := [] }

/-- An entry whose subject is the empty string, not older than any
reasonable cutoff. -/
def eEmptySubj : ScratchpadEntry :=
  { id := "ce1", subject := "", predicate := "observed", object := "o", content := "c",
    original_content := none, original_tokens := 1, minimized_tokens := 1,
    enriched_content := none, created_at := 100, expires_at := 130, metadata := none }

/-- The store holding only `eEmptySubj`. -/
def sEmptySubj : ScratchpadState := { entries := [eEmptySubj], enrichment_cache := [] }

/-- A one-entry store whose formatted line costs 20 length-tokens. -/
def sInj : ScratchpadState :=
  { entries :=
      [{ id := "inj1", subject := "B", predicate := "observed", object := "o", content := "c",
         original_content := none, original_tokens := 20, minimized_tokens := 20,
         enriched_content := none, created_at := 0, expires_at := 1000, metadata := none }],
    enrichment_cache := [] }

/-- The store after inserting the triple `("a", "p1", "b")` into a
fresh store: one durable row, one mirror edge. -/
def gOneEdge : GraphStoreState :=
  (GraphStore.add_relationship emptyGraphStore
    (Relationship.mk "a" "p1" "b" none)).2

/-- The store holding the single durable entity `"a"` (a schematic). -/
def gOneEntity : GraphStoreState :=
  (GraphStore.add_entity emptyGraphStore (Entity.mk "a" "schematic" "A" none)).2

/-- The enrichment value `read(enrich=True)` computes for one entry
from the pre-read cache: cache hit, else the expander's answer, else
the entry's own content. -/
def pureEnrichVal (expander : ScratchpadEntry → Option String)
    (cache : List (String × String)) (e : ScratchpadEntry) : String :=
  match cache.find? (fun kv => kv.1 == e.id) with
  | some kv => kv.2
  | none => (expander e).getD e.content

/-- A walk from `a` to `b` in the undirected view of the mirror:
nonempty, starts at `a`, ends at `b`, consecutive nodes adjacent. -/
def UWalk (g : NXGraph) (a b : String) (p : List String) : Prop :=
  p.head? = some a ∧ p.getLast? = some b ∧
  List.Chain' (fun u v => GraphStore.uAdj g u v = true) p

/-- The sum of the per-type counts reported by `stats().entity_types`. -/
def sumTypeCounts (gs : GraphStats) : Nat :=
  (gs.entity_types.map (fun kv => kv.2)).sum

/-- The filtered, newest-first-sorted entry list a `read` call
operates on (the `entries` value just before the enrichment loop);
textually identical to the corresponding steps of `read`. -/
def ScratchpadStore.read_matches (now : Int) (s : ScratchpadState)
    (subject predicate : Option String) : List ScratchpadEntry :=
  let s1 := ScratchpadStore.cleanup_expired now s
  let es0 := s1.entries
  let es1 := match subject with
    | some subj => if subj != "" then es0.filter (fun e => e.subject == subj) else es0
    | none => es0
  let es2 := match predicate with
    | some p => if p != "" then es1.filter (fun e => e.predicate == p) else es1
    | none => es1
  ScratchpadStore.sortByCreatedDesc es2

/-- The `(u, v)` keys of the mirror's directed edges. -/
def edgeKeys (g : NXGraph) : List (String × String) := g.edges.map (fun ed => ed.1)

/-- The graph keys a mutation guarantees to exist after it runs: its
entity's node id, or its relationship's endpoint nodes and edge key. -/
def opKeysPresent (st : GraphStoreState) : GOp → Prop
  | GOp.ent e => e.id ∈ nodeIds st.graph
  | GOp.rel r => r.subject ∈ nodeIds st.graph ∧ r.object ∈ nodeIds st.graph ∧
      (r.subject, r.object) ∈ edgeKeys st.graph

/-- One probe of the iterative-deepening search in `shortest_path`:
the first walk of exactly `k` hops from `a` that ends at `b`, already
turned back into forward order. -/
def spProbe (g : NXGraph) (a b : String) (k : Nat) : Option (List String) :=
  ((GraphStore.rwalks g a k).find? (fun w => w.head? == some b)).map List.reverse

-- =========================================================================
-- Shared helper lemmas
-- =========================================================================

/-- If mapping `f` over `l` is duplicate-free, `f` is injective on `l`. -/
theorem nodup_map_inj {α β : Type} {f : α → β} {l : List α} (h : (l.map f).Nodup)
    {x y : α} (hx : x ∈ l) (hy : y ∈ l) (hf : f x = f y) : x = y := by
  induction l with
  | nil => cases hx
  | cons a t ih =>
    simp only [List.map_cons, List.nodup_cons] at h
    rcases List.mem_cons.mp hx with rfl | hx' <;> rcases List.mem_cons.mp hy with rfl | hy'
    · rfl
    · exact absurd (List.mem_map.mpr ⟨y, hy', hf.symm⟩) h.1
    · exact absurd (List.mem_map.mpr ⟨x, hx', hf⟩) h.1
    · exact ih h.2 hx' hy'

/-- Filtering can only lower the token sum. -/
theorem sumTokens_filter_le (p : ScratchpadEntry → Bool) (l : List ScratchpadEntry) :
    ScratchpadStore.sumTokens (l.filter p) ≤ ScratchpadStore.sumTokens l := by
  induction l with
  | nil => simp [ScratchpadStore.sumTokens]
  | cons a t ih =>
    have h1 : ScratchpadStore.sumTokens (List.filter p (a :: t)) =
        if p a = true then a.minimized_tokens + ScratchpadStore.sumTokens (List.filter p t)
        else ScratchpadStore.sumTokens (List.filter p t) := by
      rw [List.filter_cons]
      split <;> simp [ScratchpadStore.sumTokens]
    have h2 : ScratchpadStore.sumTokens (a :: t) =
        a.minimized_tokens + ScratchpadStore.sumTokens t := by
      simp [ScratchpadStore.sumTokens]
    rw [h1, h2]
    split <;> omega

/-- Membership of an entry's id in the ids of a filtered sublist decides
the filter predicate at that entry, provided ids are duplicate-free. -/
theorem mem_filter_map_id_iff {l : List ScratchpadEntry}
    (h : (l.map (fun e => e.id)).Nodup) (p : ScratchpadEntry → Bool)
    (e : ScratchpadEntry) (he : e ∈ l) :
    (((l.filter p).map (fun e => e.id)).contains e.id) = p e := by
  cases hp : p e with
  | true =>
    have hm : e.id ∈ (l.filter p).map (fun e => e.id) :=
      List.mem_map.mpr ⟨e, List.mem_filter.mpr ⟨he, hp⟩, rfl⟩
    simp [hm]
  | false =>
    have hm : e.id ∉ (l.filter p).map (fun e => e.id) := by
      intro hmem
      obtain ⟨x, hx, hxid⟩ := List.mem_map.mp hmem
      obtain ⟨hxl, hpx⟩ := List.mem_filter.mp hx
      cases nodup_map_inj h hxl he hxid
      rw [hp] at hpx
      exact Bool.false_ne_true hpx
    simp [hm]

-- =========================================================================
-- Claim C7
-- =========================================================================

/-- Claim C7: for every subject, object, content and metadata, a `write`
whose predicate is outside the closed vocabulary returns a result with
`success = false` and leaves the scratchpad state (entry map, enrichment
cache, token accounting) completely unchanged. -/
theorem write_invalid_predicate_rejected
    (cfg : ScratchpadConfig) (llm : Option String) (now : Int) (new_id : String)
    (s : ScratchpadState) (subject predicate object content : String)
    (minimize : Bool) (metadata : Option Meta)
    (h : predicate ∉ VALID_SCRATCHPAD_PREDICATES) :
    (ScratchpadStore.write cfg llm now new_id s subject predicate object content
        minimize metadata).1.success = false ∧
    (ScratchpadStore.write cfg llm now new_id s subject predicate object content
        minimize metadata).2 = s := by
  have hc : VALID_SCRATCHPAD_PREDICATES.contains predicate = false := by simp [h]
  unfold ScratchpadStore.write
  rw [hc]
  exact ⟨rfl, rfl⟩

/-- Witness for `write_invalid_predicate_rejected` at the concrete
predicate "not_a_real_predicate" on the empty store. -/
theorem write_invalid_predicate_rejected_witness :
    "not_a_real_predicate" ∉ VALID_SCRATCHPAD_PREDICATES ∧
    ((ScratchpadStore.write cfgLen none 0 "sp-1" emptySP "WRN-1" "not_a_real_predicate"
        "Y" "note" true none).1.success = false ∧
     (ScratchpadStore.write cfgLen none 0 "sp-1" emptySP "WRN-1" "not_a_real_predicate"
        "Y" "note" true none).2 = emptySP) :=
  ⟨by decide,
   write_invalid_predicate_rejected cfgLen none 0 "sp-1" emptySP "WRN-1"
     "not_a_real_predicate" "Y" "note" true none (by decide)⟩

-- =========================================================================
-- Claim C10
-- =========================================================================

/-- Claim C10 (amended to non-empty subjects): when `clear` is called
with both a non-empty `subject` and `older_than_minutes`, an entry is
removed if and only if its subject equals the given subject OR its
`created_at` is older than the cutoff `now - older_than_minutes` (union
semantics): entries of other subjects that are older than the cutoff
are also removed, and entries of the given subject are removed
regardless of age. -/
theorem clear_subject_and_age_union (now : Int) (s : ScratchpadState) (subj : String)
    (m : Int) (hwf : ScratchpadStore.WF s) (hs : subj ≠ "") :
    (ScratchpadStore.clear now s (some subj) (some m)).2.entries =
      s.entries.filter (fun e => !(e.subject == subj || decide (e.created_at < now - m))) ∧
    (ScratchpadStore.clear now s (some subj) (some m)).1.cleared_count =
      (s.entries.filter (fun e => e.subject == subj || decide (e.created_at < now - m))).length := by
  have hsc : ∀ e, ScratchpadStore.should_clear (some subj) (some m) (some (now - m)) e =
      (e.subject == subj || decide (e.created_at < now - m)) := by
    intro e
    unfold ScratchpadStore.should_clear pyTruthyStr
    cases hsub : (e.subject == subj) with
    | true => simp [hsub, hs]
    | false => simp [hsub, hs]
  unfold ScratchpadStore.clear
  simp only [Option.map_some']
  constructor
  · have h1 : s.entries.filter (fun e =>
        !((((s.entries.filter (ScratchpadStore.should_clear (some subj) (some m)
            (some (now - m)))).map (fun e => e.id)).contains e.id)) ) =
        s.entries.filter (fun e => !(ScratchpadStore.should_clear (some subj) (some m)
            (some (now - m)) e)) := by
      apply List.filter_congr
      intro e he
      rw [mem_filter_map_id_iff hwf.1 _ e he]
    rw [h1]
    apply List.filter_congr
    intro e _
    rw [hsc e]
  · rw [List.length_map]
    congr 1
    apply List.filter_congr
    intro e _
    rw [hsc e]

/-- Witness for `clear_subject_and_age_union` on `sClearW` with
subject "A" and a 50-minute cutoff at `now = 100`. -/
theorem clear_subject_and_age_union_witness :
    (ScratchpadStore.WF sClearW ∧ "A" ≠ "") ∧
    ((ScratchpadStore.clear 100 sClearW (some "A") (some 50)).2.entries =
       sClearW.entries.filter (fun e => !(e.subject == "A" || decide (e.created_at < 100 - 50))) ∧
     (ScratchpadStore.clear 100 sClearW (some "A") (some 50)).1.cleared_count =
       (sClearW.entries.filter (fun e => e.subject == "A" || decide (e.created_at < 100 - 50))).length) :=
  ⟨⟨by decide, by decide⟩, clear_subject_and_age_union 100 sClearW "A" 50 (by decide) (by decide)⟩

/-- Counterexample to claim C10 as stated: calling `clear` with
subject `""` and `older_than_minutes = 10` at `now = 100` on a store
whose only entry has subject `""` and age `0`.  The claim says an entry
whose subject equals the given subject is removed regardless of age;
the code treats the falsy empty-string subject as "no subject filter"
and keeps the entry (`cleared_count = 0`). -/
theorem clear_empty_subject_counterexample :
    eEmptySubj.subject = "" ∧
    (ScratchpadStore.clear 100 sEmptySubj (some "") (some 10)).2.entries = [eEmptySubj] ∧
    (ScratchpadStore.clear 100 sEmptySubj (some "") (some 10)).1.cleared_count = 0 := by
  exact ⟨rfl, by decide, by decide⟩

-- =========================================================================
-- Claim C2
-- =========================================================================

/-- Full characterization of the greedy line-accumulation loop: the
final total never exceeds the budget (given the running total starts
within it), the emitted lines are a prefix of the formatted input, the
reported total is the starting total plus the emitted lines' token
costs, and the first line not emitted (if any) would overflow. -/
theorem greedyLines_spec (cfg : ScratchpadConfig) (budget : Int) :
    ∀ (l : List ScratchpadEntry) (t0 : Nat), (t0 : Int) ≤ budget →
    ((ScratchpadStore.greedyLines cfg budget l t0).2 : Int) ≤ budget ∧
    (ScratchpadStore.greedyLines cfg budget l t0).1 =
      (l.map ScratchpadStore.formatLine).take
        (ScratchpadStore.greedyLines cfg budget l t0).1.length ∧
    (ScratchpadStore.greedyLines cfg budget l t0).2 =
      t0 + ((ScratchpadStore.greedyLines cfg budget l t0).1.map
        (ScratchpadStore.count_tokens cfg)).sum ∧
    (∀ e, (l.drop (ScratchpadStore.greedyLines cfg budget l t0).1.length).head? = some e →
       budget < ((ScratchpadStore.greedyLines cfg budget l t0).2 : Int) +
         (ScratchpadStore.count_tokens cfg (ScratchpadStore.formatLine e) : Int)) := by
  intro l
  induction l with
  | nil =>
    intro t0 h0
    refine ⟨h0, rfl, by simp [ScratchpadStore.greedyLines], ?_⟩
    intro e he
    simp [ScratchpadStore.greedyLines] at he
  | cons e rest ih =>
    intro t0 h0
    by_cases hfit : ((t0 : Int) + (ScratchpadStore.count_tokens cfg (ScratchpadStore.formatLine e) : Int)) ≤ budget
    · have hstep : ScratchpadStore.greedyLines cfg budget (e :: rest) t0 =
          (ScratchpadStore.formatLine e ::
            (ScratchpadStore.greedyLines cfg budget rest
              (t0 + ScratchpadStore.count_tokens cfg (ScratchpadStore.formatLine e))).1,
           (ScratchpadStore.greedyLines cfg budget rest
              (t0 + ScratchpadStore.count_tokens cfg (ScratchpadStore.formatLine e))).2) := by
        simp [ScratchpadStore.greedyLines, hfit]
      have h0' : ((t0 + ScratchpadStore.count_tokens cfg (ScratchpadStore.formatLine e) : Nat) : Int) ≤ budget := by
        push_cast
        exact hfit
      obtain ⟨ih1, ih2, ih3, ih4⟩ := ih (t0 + ScratchpadStore.count_tokens cfg (ScratchpadStore.formatLine e)) h0'
      rw [hstep]
      refine ⟨ih1, ?_, ?_, ?_⟩
      · simp only [List.map_cons, List.length_cons, List.take_succ_cons]
        rw [← ih2]
      · simp only [List.map_cons, List.sum_cons]
        omega
      · intro x hx
        simp only [List.length_cons, List.drop_succ_cons] at hx
        exact ih4 x hx
    · have hstep : ScratchpadStore.greedyLines cfg budget (e :: rest) t0 = ([], t0) := by
        simp [ScratchpadStore.greedyLines, hfit]
      rw [hstep]
      refine ⟨h0, rfl, by simp, ?_⟩
      intro x hx
      simp only [List.length_nil, List.drop_zero, List.head?_cons, Option.some.injEq] at hx
      subst hx
      omega

/-- Claim C2 (amended to positive budgets): for every token budget
`B ≥ 1` and every scratchpad state, the token total of the lines
returned by `get_context_for_injection(B)` is at most `B`; the lines
are a newest-first prefix of the formatted non-expired entries, the
reported total is exactly their token sum, and appending stops at the
first line whose tokens would push the running total above `B`.
(The restriction to `B ≥ 1` is forced: `B = 0` is falsy and is
replaced by the default injection budget, and a negative `B` yields an
empty result whose total `0` still exceeds `B`.) -/
theorem get_context_injection_budget (cfg : ScratchpadConfig) (now : Int)
    (s : ScratchpadState) (B : Int) (hB : 1 ≤ B) :
    ((ScratchpadStore.get_context_for_injection cfg now s (some B)).2 : Int) ≤ B ∧
    (ScratchpadStore.get_context_for_injection cfg now s (some B)).1 =
      ((ScratchpadStore.sortByCreatedDesc (ScratchpadStore.cleanup_expired now s).entries).map
        ScratchpadStore.formatLine).take
        (ScratchpadStore.get_context_for_injection cfg now s (some B)).1.length ∧
    ((ScratchpadStore.get_context_for_injection cfg now s (some B)).2 =
      (((ScratchpadStore.get_context_for_injection cfg now s (some B)).1).map
        (ScratchpadStore.count_tokens cfg)).sum) ∧
    (∀ e, ((ScratchpadStore.sortByCreatedDesc (ScratchpadStore.cleanup_expired now s).entries).drop
        (ScratchpadStore.get_context_for_injection cfg now s (some B)).1.length).head? = some e →
       B < ((ScratchpadStore.get_context_for_injection cfg now s (some B)).2 : Int) +
         (ScratchpadStore.count_tokens cfg (ScratchpadStore.formatLine e) : Int)) := by
  have hne : (B != 0) = true := by
    simp only [bne_iff_ne, ne_eq]
    omega
  have hunfold : ScratchpadStore.get_context_for_injection cfg now s (some B) =
      ScratchpadStore.greedyLines cfg B
        (ScratchpadStore.sortByCreatedDesc (ScratchpadStore.cleanup_expired now s).entries) 0 := by
    simp [ScratchpadStore.get_context_for_injection, hne]
  rw [hunfold]
  have h0 : ((0 : Nat) : Int) ≤ B := by omega
  obtain ⟨h1, h2, h3, h4⟩ := greedyLines_spec cfg B
    (ScratchpadStore.sortByCreatedDesc (ScratchpadStore.cleanup_expired now s).entries) 0 h0
  exact ⟨h1, h2, by omega, h4⟩

/-- Witness for `get_context_injection_budget` on `sInj` with `B = 1`
(the 20-token line does not fit, so the result is empty with total 0). -/
theorem get_context_injection_budget_witness :
    (1 : Int) ≤ 1 ∧
    (((ScratchpadStore.get_context_for_injection cfgLen 0 sInj (some 1)).2 : Int) ≤ 1 ∧
     (ScratchpadStore.get_context_for_injection cfgLen 0 sInj (some 1)).1 =
       ((ScratchpadStore.sortByCreatedDesc (ScratchpadStore.cleanup_expired 0 sInj).entries).map
         ScratchpadStore.formatLine).take
         (ScratchpadStore.get_context_for_injection cfgLen 0 sInj (some 1)).1.length ∧
     ((ScratchpadStore.get_context_for_injection cfgLen 0 sInj (some 1)).2 =
       (((ScratchpadStore.get_context_for_injection cfgLen 0 sInj (some 1)).1).map
         (ScratchpadStore.count_tokens cfgLen)).sum) ∧
     (∀ e, ((ScratchpadStore.sortByCreatedDesc (ScratchpadStore.cleanup_expired 0 sInj).entries).drop
         (ScratchpadStore.get_context_for_injection cfgLen 0 sInj (some 1)).1.length).head? = some e →
        (1 : Int) < ((ScratchpadStore.get_context_for_injection cfgLen 0 sInj (some 1)).2 : Int) +
          (ScratchpadStore.count_tokens cfgLen (ScratchpadStore.formatLine e) : Int))) :=
  ⟨by decide, get_context_injection_budget cfgLen 0 sInj 1 (by decide)⟩

/-- Counterexample to claim C2 as stated ("for every token budget B"):
at `B = 0` the budget argument is falsy, Python's
`token_budget or self._inject_budget` substitutes the default budget
(100 here), and the store returns its 20-token line — a total of 20,
which is not `≤ 0`. -/
theorem get_context_injection_budget_counterexample :
    ¬ (((ScratchpadStore.get_context_for_injection cfgLen 0 sInj (some 0)).2 : Int) ≤ 0) := by
  decide

-- =========================================================================
-- Claim C1
-- =========================================================================

/-- `oldestEntry` returns an element of the candidate list. -/
theorem oldestEntry_mem (e : ScratchpadEntry) (l : List ScratchpadEntry) :
    ScratchpadStore.oldestEntry e l = e ∨ ScratchpadStore.oldestEntry e l ∈ l := by
  unfold ScratchpadStore.oldestEntry
  induction l generalizing e with
  | nil => left; rfl
  | cons a t ih =>
    simp only [List.foldl_cons]
    rcases ih (if a.created_at < e.created_at then a else e) with h | h
    · rw [h]
      split
      · right; exact List.mem_cons_self _ _
      · left; rfl
    · right; exact List.mem_cons_of_mem _ h

/-- `oldestEntry` is minimal by `created_at` among the candidates. -/
theorem oldestEntry_le (e : ScratchpadEntry) (l : List ScratchpadEntry) :
    ∀ x, x = e ∨ x ∈ l →
      (ScratchpadStore.oldestEntry e l).created_at ≤ x.created_at := by
  unfold ScratchpadStore.oldestEntry
  induction l generalizing e with
  | nil =>
    intro x hx
    rcases hx with rfl | h
    · exact le_refl _
    · cases h
  | cons a t ih =>
    intro x hx
    simp only [List.foldl_cons]
    have he'e : (if a.created_at < e.created_at then a else e).created_at ≤ e.created_at := by
      split <;> omega
    have he'a : (if a.created_at < e.created_at then a else e).created_at ≤ a.created_at := by
      split <;> omega
    rcases hx with rfl | hx
    · exact le_trans (ih _ _ (Or.inl rfl)) he'e
    · rcases List.mem_cons.mp hx with rfl | hxt
      · exact le_trans (ih _ _ (Or.inl rfl)) he'a
      · exact ih _ x (Or.inr hxt)

/-- Removing the entries sharing the oldest entry's id lowers the
token sum by at least the oldest entry's own cost. -/
theorem sumTokens_filter_ne_id_le (l : List ScratchpadEntry) (o : ScratchpadEntry)
    (ho : o ∈ l) :
    ScratchpadStore.sumTokens (l.filter (fun x => x.id != o.id)) + o.minimized_tokens ≤
      ScratchpadStore.sumTokens l := by
  have hsum_cons : ∀ (b : ScratchpadEntry) (m : List ScratchpadEntry),
      ScratchpadStore.sumTokens (b :: m) = b.minimized_tokens + ScratchpadStore.sumTokens m := by
    intro b m; simp [ScratchpadStore.sumTokens]
  induction l with
  | nil => cases ho
  | cons a t ih =>
    rw [List.filter_cons]
    rcases List.mem_cons.mp ho with heq | hot
    · rw [← heq]
      have hf : (o.id != o.id) = false := by simp
      rw [hf]
      simp only [Bool.false_eq_true, if_false]
      rw [hsum_cons]
      have := sumTokens_filter_le (fun x => x.id != o.id) t
      omega
    · cases hcond : (a.id != o.id) with
      | false =>
        simp only [Bool.false_eq_true, if_false]
        rw [hsum_cons]
        have := ih hot
        omega
      | true =>
        simp only [if_true]
        rw [hsum_cons, hsum_cons]
        have := ih hot
        omega

/-- Budget invariant of the eviction loop: if the running counter
dominates the real token sum and the fuel dominates the list length,
the loop exits either under budget or with no entries left. -/
theorem evictLoop_sum (maxT needed : Nat) :
    ∀ (fuel : Nat) (l : List ScratchpadEntry) (cache : List (String × String))
      (cur ev : Nat), ScratchpadStore.sumTokens l ≤ cur → l.length ≤ fuel →
      (ScratchpadStore.sumTokens
          (ScratchpadStore.evictLoop maxT needed fuel l cache cur ev).2.1 + needed ≤ maxT ∨
        (ScratchpadStore.evictLoop maxT needed fuel l cache cur ev).2.1 = []) := by
  intro fuel
  induction fuel with
  | zero =>
    intro l cache cur ev hsum hlen
    right
    have hl : l = [] := List.length_eq_zero.mp (Nat.le_zero.mp hlen)
    subst hl
    rfl
  | succ fuel ih =>
    intro l cache cur ev hsum hlen
    match l with
    | [] => right; rfl
    | e :: rest =>
      by_cases hover : maxT < cur + needed
      · have hstep : ScratchpadStore.evictLoop maxT needed (fuel + 1) (e :: rest) cache cur ev =
            ScratchpadStore.evictLoop maxT needed fuel
              ((e :: rest).filter (fun x => x.id != (ScratchpadStore.oldestEntry e rest).id))
              (cache.filter (fun kv => kv.1 != (ScratchpadStore.oldestEntry e rest).id))
              (cur - (ScratchpadStore.oldestEntry e rest).minimized_tokens) (ev + 1) := by
          simp [ScratchpadStore.evictLoop, hover]
        rw [hstep]
        have homem : ScratchpadStore.oldestEntry e rest ∈ e :: rest := by
          rcases oldestEntry_mem e rest with h | h
          · rw [h]; exact List.mem_cons_self _ _
          · exact List.mem_cons_of_mem _ h
        have hrm : ScratchpadStore.sumTokens
            ((e :: rest).filter (fun x => x.id != (ScratchpadStore.oldestEntry e rest).id)) ≤
            cur - (ScratchpadStore.oldestEntry e rest).minimized_tokens := by
          have h1 := sumTokens_filter_ne_id_le (e :: rest) (ScratchpadStore.oldestEntry e rest) homem
          omega
        have hlen' : ((e :: rest).filter
            (fun x => x.id != (ScratchpadStore.oldestEntry e rest).id)).length ≤ fuel := by
          have hlt : ((e :: rest).filter
              (fun x => x.id != (ScratchpadStore.oldestEntry e rest).id)).length <
              (e :: rest).length :=
            List.length_filter_lt_length_iff_exists.mpr
              ⟨ScratchpadStore.oldestEntry e rest, homem, by simp⟩
          simp only [List.length_cons] at hlt hlen
          omega
        exact ih _ _ _ _ hrm hlen'
      · have hstep : ScratchpadStore.evictLoop maxT needed (fuel + 1) (e :: rest) cache cur ev =
            (ev, e :: rest, cache) := by
          simp [ScratchpadStore.evictLoop, hover]
        rw [hstep]
        left
        show ScratchpadStore.sumTokens (e :: rest) + needed ≤ maxT
        omega

/-- Oldest-first eviction: the survivors form a sublist of the input,
and every evicted entry is at least as old as every survivor
(requires duplicate-free entry ids, as in every reachable state). -/
theorem evictLoop_oldest_first (maxT needed : Nat) :
    ∀ (fuel : Nat) (l : List ScratchpadEntry) (cache : List (String × String))
      (cur ev : Nat), (l.map (fun e => e.id)).Nodup →
      (ScratchpadStore.evictLoop maxT needed fuel l cache cur ev).2.1.Sublist l ∧
      (∀ e ∈ l, e ∉ (ScratchpadStore.evictLoop maxT needed fuel l cache cur ev).2.1 →
        ∀ e' ∈ (ScratchpadStore.evictLoop maxT needed fuel l cache cur ev).2.1,
          e.created_at ≤ e'.created_at) := by
  intro fuel
  induction fuel with
  | zero =>
    intro l cache cur ev _
    exact ⟨List.Sublist.refl l, fun e he hne _ _ => absurd he hne⟩
  | succ fuel ih =>
    intro l cache cur ev hnd
    match l with
    | [] =>
      exact ⟨List.Sublist.refl [], fun e he => absurd he (List.not_mem_nil e)⟩
    | e :: rest =>
      by_cases hover : maxT < cur + needed
      · have hstep : ScratchpadStore.evictLoop maxT needed (fuel + 1) (e :: rest) cache cur ev =
            ScratchpadStore.evictLoop maxT needed fuel
              ((e :: rest).filter (fun x => x.id != (ScratchpadStore.oldestEntry e rest).id))
              (cache.filter (fun kv => kv.1 != (ScratchpadStore.oldestEntry e rest).id))
              (cur - (ScratchpadStore.oldestEntry e rest).minimized_tokens) (ev + 1) := by
          simp [ScratchpadStore.evictLoop, hover]
        rw [hstep]
        have homem : ScratchpadStore.oldestEntry e rest ∈ e :: rest := by
          rcases oldestEntry_mem e rest with h | h
          · rw [h]; exact List.mem_cons_self _ _
          · exact List.mem_cons_of_mem _ h
        have hsubf : ((e :: rest).filter
            (fun x => x.id != (ScratchpadStore.oldestEntry e rest).id)).Sublist (e :: rest) :=
          List.filter_sublist _
        have hnd' : (((e :: rest).filter
            (fun x => x.id != (ScratchpadStore.oldestEntry e rest).id)).map
              (fun e => e.id)).Nodup :=
          (hsubf.map (fun e => e.id)).nodup hnd
        obtain ⟨ihsub, ihold⟩ := ih _ _ _ _ hnd'
        refine ⟨ihsub.trans hsubf, ?_⟩
        intro e0 he0 hne0 e' he'
        by_cases he0f : e0 ∈ (e :: rest).filter
            (fun x => x.id != (ScratchpadStore.oldestEntry e rest).id)
        · exact ihold e0 he0f hne0 e' he'
        · have hid : e0.id = (ScratchpadStore.oldestEntry e rest).id := by
            by_contra hne
            exact he0f (List.mem_filter.mpr ⟨he0, by simp [hne]⟩)
          have he0eq : e0 = ScratchpadStore.oldestEntry e rest :=
            nodup_map_inj hnd he0 homem hid
          rw [he0eq]
          exact oldestEntry_le e rest e' (List.mem_cons.mp (ihsub.trans hsubf |>.mem he'))
      · have hstep : ScratchpadStore.evictLoop maxT needed (fuel + 1) (e :: rest) cache cur ev =
            (ev, e :: rest, cache) := by
          simp [ScratchpadStore.evictLoop, hover]
        rw [hstep]
        exact ⟨List.Sublist.refl _, fun e0 he0 hne0 _ _ => absurd he0 hne0⟩

/-- Replacing the entries that share the new entry's id raises the
token sum by at most the new entry's cost (given duplicate-free ids,
at most one entry is replaced). -/
theorem sumTokens_map_replace_le (e : ScratchpadEntry) (l : List ScratchpadEntry)
    (h : (l.map (fun x => x.id)).Nodup) :
    ScratchpadStore.sumTokens (l.map (fun x => if x.id == e.id then e else x)) ≤
      ScratchpadStore.sumTokens l + e.minimized_tokens := by
  have hsum_cons : ∀ (b : ScratchpadEntry) (m : List ScratchpadEntry),
      ScratchpadStore.sumTokens (b :: m) =
        b.minimized_tokens + ScratchpadStore.sumTokens m := by
    intro b m; simp [ScratchpadStore.sumTokens]
  induction l with
  | nil => simp [ScratchpadStore.sumTokens]
  | cons a t ih =>
    simp only [List.map_cons, List.nodup_cons] at h
    simp only [List.map_cons]
    cases hcase : (a.id == e.id) with
    | false =>
      simp only [hcase, Bool.false_eq_true, if_false]
      rw [hsum_cons, hsum_cons]
      have := ih h.2
      omega
    | true =>
      simp only [hcase, if_true]
      have hta : ∀ x ∈ t, (if x.id == e.id then e else x) = id x := by
        intro x hx
        rw [if_neg]
        · rfl
        intro hxe
        apply h.1
        have hxid : x.id = e.id := by simpa using hxe
        have haid : a.id = e.id := by simpa using hcase
        exact List.mem_map.mpr ⟨x, hx, by rw [hxid, haid]⟩
      rw [List.map_congr_left hta, List.map_id]
      rw [hsum_cons, hsum_cons]
      omega

/-- Inserting the new entry into the dict raises the token sum by at
most the new entry's cost (given duplicate-free ids). -/
theorem sumTokens_dictInsert_le (l : List ScratchpadEntry) (e : ScratchpadEntry)
    (h : (l.map (fun x => x.id)).Nodup) :
    ScratchpadStore.sumTokens (ScratchpadStore.dictInsert l e) ≤
      ScratchpadStore.sumTokens l + e.minimized_tokens := by
  unfold ScratchpadStore.dictInsert
  split
  · exact sumTokens_map_replace_le e l h
  · simp [ScratchpadStore.sumTokens]

/-- Bridging equation: a valid-predicate `write` stores exactly one new
entry (whose `minimized_tokens` is `needed_tokens` and whose
`created_at` is `now`) into the entries that survived eviction. -/
theorem write_entries_eq (cfg : ScratchpadConfig) (llm : Option String) (now : Int)
    (new_id : String) (s : ScratchpadState) (subject predicate object content : String)
    (minimize : Bool) (metadata : Option Meta)
    (hpred : predicate ∈ VALID_SCRATCHPAD_PREDICATES) :
    ∃ entry : ScratchpadEntry,
      (ScratchpadStore.write cfg llm now new_id s subject predicate object content
          minimize metadata).2.entries =
        ScratchpadStore.dictInsert
          (ScratchpadStore.enforce_token_budget cfg
            (ScratchpadStore.needed_tokens cfg llm content minimize)
            (ScratchpadStore.cleanup_expired now s)).2.1 entry ∧
      entry.minimized_tokens = ScratchpadStore.needed_tokens cfg llm content minimize ∧
      entry.created_at = now := by
  have hc' : (!(VALID_SCRATCHPAD_PREDICATES.contains predicate)) = false := by simp [hpred]
  unfold ScratchpadStore.write
  rw [hc']
  simp only [Bool.false_eq_true, if_false]
  exact ⟨_, rfl, rfl, rfl⟩

/-- Claim C1 (amended): for every state with duplicate-free entry ids
and every `write` with a valid predicate whose computed
`minimized_tokens` fits within `max_tokens`, immediately after the
write the sum of `minimized_tokens` over all non-expired stored
entries is at most `max_tokens`; and eviction during the write is
oldest-first: every evicted entry is at least as old (by `created_at`)
as every surviving entry.  (The fit proviso is forced: an entry whose
own `minimized_tokens` exceeds `max_tokens` empties the store and is
stored anyway, see the counterexample.) -/
theorem write_budget_invariant (cfg : ScratchpadConfig) (llm : Option String) (now : Int)
    (new_id : String) (s : ScratchpadState) (subject predicate object content : String)
    (minimize : Bool) (metadata : Option Meta)
    (hwf : ScratchpadStore.WF s)
    (hpred : predicate ∈ VALID_SCRATCHPAD_PREDICATES)
    (hneed : ScratchpadStore.needed_tokens cfg llm content minimize ≤ cfg.max_tokens) :
    ScratchpadStore.sumTokens
      (((ScratchpadStore.write cfg llm now new_id s subject predicate object content
          minimize metadata).2).entries.filter
        (fun e => !(ScratchpadStore.is_expired now e))) ≤ cfg.max_tokens ∧
    (∀ e ∈ (ScratchpadStore.cleanup_expired now s).entries,
      e ∉ (ScratchpadStore.enforce_token_budget cfg
            (ScratchpadStore.needed_tokens cfg llm content minimize)
            (ScratchpadStore.cleanup_expired now s)).2.1 →
      ∀ e' ∈ (ScratchpadStore.enforce_token_budget cfg
            (ScratchpadStore.needed_tokens cfg llm content minimize)
            (ScratchpadStore.cleanup_expired now s)).2.1,
        e.created_at ≤ e'.created_at) := by
  have hnd1 : ((ScratchpadStore.cleanup_expired now s).entries.map (fun e => e.id)).Nodup := by
    have hsub : (ScratchpadStore.cleanup_expired now s).entries.Sublist s.entries :=
      List.filter_sublist _
    exact (hsub.map (fun e => e.id)).nodup hwf.1
  have hof := evictLoop_oldest_first cfg.max_tokens
    (ScratchpadStore.needed_tokens cfg llm content minimize)
    (ScratchpadStore.cleanup_expired now s).entries.length
    (ScratchpadStore.cleanup_expired now s).entries
    (ScratchpadStore.cleanup_expired now s).enrichment_cache
    (ScratchpadStore.sumTokens (ScratchpadStore.cleanup_expired now s).entries) 0 hnd1
  constructor
  · obtain ⟨entry, hent, htok, -⟩ := write_entries_eq cfg llm now new_id s subject predicate
      object content minimize metadata hpred
    rw [hent]
    have hndEV : ((ScratchpadStore.enforce_token_budget cfg
        (ScratchpadStore.needed_tokens cfg llm content minimize)
        (ScratchpadStore.cleanup_expired now s)).2.1.map (fun e => e.id)).Nodup :=
      (hof.1.map (fun e => e.id)).nodup hnd1
    have hb := evictLoop_sum cfg.max_tokens
      (ScratchpadStore.needed_tokens cfg llm content minimize)
      (ScratchpadStore.cleanup_expired now s).entries.length
      (ScratchpadStore.cleanup_expired now s).entries
      (ScratchpadStore.cleanup_expired now s).enrichment_cache
      (ScratchpadStore.sumTokens (ScratchpadStore.cleanup_expired now s).entries) 0
      (le_refl _) (le_refl _)
    rcases hb with hb | hb
    · refine le_trans (sumTokens_filter_le _ _)
        (le_trans (sumTokens_dictInsert_le _ _ hndEV) ?_)
      rw [htok]
      exact hb
    · have hb' : (ScratchpadStore.enforce_token_budget cfg
          (ScratchpadStore.needed_tokens cfg llm content minimize)
          (ScratchpadStore.cleanup_expired now s)).2.1 = [] := hb
      rw [hb']
      have hone : ScratchpadStore.dictInsert [] entry = [entry] := by
        simp [ScratchpadStore.dictInsert]
      rw [hone]
      refine le_trans (sumTokens_filter_le _ _) ?_
      have hsingle : ScratchpadStore.sumTokens [entry] = entry.minimized_tokens := by
        simp [ScratchpadStore.sumTokens]
      rw [hsingle, htok]
      exact hneed
  · exact hof.2

/-- Witness for `write_budget_invariant`: a 3-token write into the
empty store under a 10-token budget. -/
theorem write_budget_invariant_witness :
    (ScratchpadStore.WF emptySP ∧ "observed" ∈ VALID_SCRATCHPAD_PREDICATES ∧
      ScratchpadStore.needed_tokens cfgLen none "abc" false ≤ cfgLen.max_tokens) ∧
    (ScratchpadStore.sumTokens
      (((ScratchpadStore.write cfgLen none 0 "sp-2" emptySP "X" "observed" "Y" "abc"
          false none).2).entries.filter
        (fun e => !(ScratchpadStore.is_expired 0 e))) ≤ cfgLen.max_tokens ∧
    (∀ e ∈ (ScratchpadStore.cleanup_expired 0 emptySP).entries,
      e ∉ (ScratchpadStore.enforce_token_budget cfgLen
            (ScratchpadStore.needed_tokens cfgLen none "abc" false)
            (ScratchpadStore.cleanup_expired 0 emptySP)).2.1 →
      ∀ e' ∈ (ScratchpadStore.enforce_token_budget cfgLen
            (ScratchpadStore.needed_tokens cfgLen none "abc" false)
            (ScratchpadStore.cleanup_expired 0 emptySP)).2.1,
        e.created_at ≤ e'.created_at)) :=
  ⟨⟨by decide, by decide, by decide⟩,
   write_budget_invariant cfgLen none 0 "sp-2" emptySP "X" "observed" "Y" "abc" false none
     (by decide) (by decide) (by decide)⟩

/-- Counterexample to claim C1 as stated: writing a single 20-token
entry (`minimize = false`, length-based counting) into an empty store
with `max_tokens = 10`.  The eviction loop stops when the store is
empty, the oversized entry is stored anyway, and the post-write sum of
`minimized_tokens` over non-expired entries is 20 > 10. -/
theorem write_budget_invariant_counterexample :
    ¬ (ScratchpadStore.sumTokens
      (((ScratchpadStore.write cfgLen none 0 "sp-3" emptySP "X" "observed" "Y"
          "aaaaaaaaaaaaaaaaaaaa" false none).2).entries.filter
        (fun e => !(ScratchpadStore.is_expired 0 e))) ≤ cfgLen.max_tokens) := by
  decide

-- =========================================================================
-- Claim C4
-- =========================================================================

/-- After replacing every row whose id matches, the first row found by
id is the replacement. -/
theorem find?_map_replace (row : Entity) (l : List Entity) (eid : String)
    (hrow : row.id = eid) (hany : l.any (fun r => r.id == eid) = true) :
    (l.map (fun r => if r.id == eid then row else r)).find? (fun r => r.id == eid) =
      some row := by
  induction l with
  | nil => cases hany
  | cons a t ih =>
    simp only [List.map_cons]
    cases h : (a.id == eid) with
    | true =>
      simp only [h, if_true]
      apply List.find?_cons_of_pos
      simp [hrow]
    | false =>
      simp only [h, Bool.false_eq_true, if_false]
      rw [List.find?_cons_of_neg _ (by simp [h])]
      apply ih
      simp only [List.any_cons, h, Bool.false_or] at hany
      exact hany

/-- Claim C4 (amended): for every entity `e` whose metadata is not the
empty dict, `add_entity(e)` followed by `get_entity(e.id)` returns a
value equal to `e` in id, entity_type, name and metadata (on a live
connection).  An empty-dict metadata is falsy, is stored as NULL, and
comes back as `None` — see the counterexample. -/
theorem add_entity_get_entity_roundtrip (st : GraphStoreState) (e : Entity)
    (hc : st.conn_ok = true) (hm : e.metadata ≠ some []) :
    GraphStore.get_entity (GraphStore.add_entity st e).2 e.id = some e := by
  have hnorm : (if pyTruthyMeta e.metadata then e.metadata else none) = e.metadata := by
    cases hmm : e.metadata with
    | none => simp [pyTruthyMeta]
    | some m =>
      cases m with
      | nil => rw [hmm] at hm; exact absurd rfl hm
      | cons a t => simp [pyTruthyMeta]
  unfold GraphStore.add_entity
  simp only [hc, Bool.not_true, Bool.false_eq_true, if_false]
  unfold GraphStore.get_entity
  simp only [hc, Bool.not_true, Bool.false_eq_true, if_false]
  by_cases hany : st.db_entities.any (fun r => r.id == e.id) = true
  · simp only [hany, if_true]
    rw [find?_map_replace
      { e with metadata := if pyTruthyMeta e.metadata then e.metadata else none }
      st.db_entities e.id rfl hany]
    simp only [Option.map_some']
    rw [hnorm]
  · simp only [Bool.not_eq_true] at hany
    simp only [hany, Bool.false_eq_true, if_false]
    rw [List.find?_append]
    have hnone : st.db_entities.find? (fun r => r.id == e.id) = none :=
      List.find?_eq_none.mpr (List.any_eq_false.mp hany)
    rw [hnone]
    have hone : List.find? (fun r => r.id == e.id)
        [{ e with metadata := if pyTruthyMeta e.metadata then e.metadata else none }] =
        some { e with metadata := if pyTruthyMeta e.metadata then e.metadata else none } :=
      List.find?_cons_of_pos _ (by simp)
    rw [Option.none_or, hone]
    simp only [Option.map_some']
    rw [hnorm]

/-- Witness for `add_entity_get_entity_roundtrip` with a non-empty
metadata dict on a fresh store. -/
theorem add_entity_get_entity_roundtrip_witness :
    (emptyGraphStore.conn_ok = true ∧
      (Entity.mk "WRN-1" "schematic" "Atlas" (some [("model", "WC-100")])).metadata ≠ some []) ∧
    GraphStore.get_entity
      (GraphStore.add_entity emptyGraphStore
        (Entity.mk "WRN-1" "schematic" "Atlas" (some [("model", "WC-100")]))).2
      (Entity.mk "WRN-1" "schematic" "Atlas" (some [("model", "WC-100")])).id =
      some (Entity.mk "WRN-1" "schematic" "Atlas" (some [("model", "WC-100")])) :=
  ⟨⟨by decide, by decide⟩,
   add_entity_get_entity_roundtrip emptyGraphStore
     (Entity.mk "WRN-1" "schematic" "Atlas" (some [("model", "WC-100")]))
     (by decide) (by decide)⟩

/-- Counterexample to claim C4 as stated ("for every entity e"): an
entity with empty-dict metadata.  `json.dumps(m) if m else None` stores
NULL for the falsy `{}`, so `get_entity` returns metadata `None ≠ {}`
and the roundtrip is not field-equal. -/
theorem add_entity_get_entity_roundtrip_counterexample :
    ¬ (GraphStore.get_entity
        (GraphStore.add_entity emptyGraphStore (Entity.mk "x" "t" "n" (some []))).2
        (Entity.mk "x" "t" "n" (some [])).id =
       some (Entity.mk "x" "t" "n" (some []))) := by
  decide

-- =========================================================================
-- Claim C3
-- =========================================================================

/-- `ensureNode` leaves the edge list untouched. -/
theorem ensureNode_edges (g : NXGraph) (x : String) : (g.ensureNode x).edges = g.edges := by
  unfold NXGraph.ensureNode
  split <;> rfl

/-- After `addEdge u v`, the `(u, v)` key is present. -/
theorem addEdge_any_self (g : NXGraph) (u v : String) (a : Meta) :
    ((g.addEdge u v a).edges.any (fun ed => ed.1.1 == u && ed.1.2 == v)) = true := by
  unfold NXGraph.addEdge
  by_cases h : ((g.ensureNode u).ensureNode v).edges.any
      (fun ed => ed.1.1 == u && ed.1.2 == v) = true
  · simp only [h, if_true]
    obtain ⟨ed, hed, hp⟩ := List.any_eq_true.mp h
    apply List.any_eq_true.mpr
    refine ⟨(ed.1, mergeAttrs ed.2 a), List.mem_map.mpr ⟨ed, hed, by rw [if_pos hp]⟩, hp⟩
  · simp only [Bool.not_eq_true] at h
    simp only [h, Bool.false_eq_true, if_false]
    rw [List.any_append]
    simp

/-- The edge count after `addEdge u v` grows by one exactly when the
`(u, v)` key was absent. -/
theorem addEdge_edges_length (g : NXGraph) (u v : String) (a : Meta) :
    (g.addEdge u v a).edges.length =
      if g.edges.any (fun ed => ed.1.1 == u && ed.1.2 == v) then g.edges.length
      else g.edges.length + 1 := by
  unfold NXGraph.addEdge
  have hE : ((g.ensureNode u).ensureNode v).edges = g.edges := by
    rw [ensureNode_edges, ensureNode_edges]
  simp only [hE]
  split
  · simp
  · simp

/-- `add_relationship` preserves the connection flag. -/
theorem add_relationship_conn (st : GraphStoreState) (r : Relationship) :
    (GraphStore.add_relationship st r).2.conn_ok = st.conn_ok := by
  unfold GraphStore.add_relationship
  split <;> rfl

/-- On a live connection, `add_relationship` replaces the mirror by
`addEdge` and returns `rowcount > 0`. -/
theorem add_relationship_unfold (st : GraphStoreState) (r : Relationship)
    (hc : st.conn_ok = true) :
    (GraphStore.add_relationship st r).2.graph =
      st.graph.addEdge r.subject r.object
        (mergeAttrs [("predicate", r.predicate)]
          (if pyTruthyMeta r.metadata then r.metadata.getD [] else [])) ∧
    (GraphStore.add_relationship st r).1 =
      !(st.db_triplets.any (fun x =>
        x.subject == r.subject && x.predicate == r.predicate && x.object == r.object)) := by
  unfold GraphStore.add_relationship
  simp only [hc, Bool.not_true, Bool.false_eq_true, if_false]
  refine ⟨?_, ?_⟩ <;> simp

/-- On a live connection, after `add_relationship r` the triplet key
`(r.subject, r.predicate, r.object)` is present in the durable table. -/
theorem add_relationship_hasTriple (st : GraphStoreState) (r : Relationship)
    (hc : st.conn_ok = true) :
    ((GraphStore.add_relationship st r).2.db_triplets.any (fun x =>
      x.subject == r.subject && x.predicate == r.predicate && x.object == r.object)) = true := by
  unfold GraphStore.add_relationship
  simp only [hc, Bool.not_true, Bool.false_eq_true, if_false]
  by_cases hdup : st.db_triplets.any (fun x =>
      x.subject == r.subject && x.predicate == r.predicate && x.object == r.object) = true
  · simp only [hdup, if_true]
    try exact hdup
  · simp only [Bool.not_eq_true] at hdup
    simp only [hdup, Bool.false_eq_true, if_false]
    rw [List.any_append]
    simp

/-- On a live connection, `stats` reports the mirror's edge count. -/
theorem stats_relationship_count (st : GraphStoreState) (hc : st.conn_ok = true) :
    (GraphStore.stats st).relationship_count = st.graph.edges.length := by
  unfold GraphStore.stats
  simp only [hc, Bool.not_true, Bool.false_eq_true, if_false]

/-- Claim C3 (amended): on a live connection and provided no edge with
the same `(subject, object)` pair exists in the mirror yet, calling
`add_relationship(t)` twice increases `relationship_count` (as
reported by `stats`) by exactly 1; the first call returns `true`
exactly when no durable row with the triple key existed (so `false`
for a duplicate triple, and `false` when the connection is gone since
`r1 = conn_ok && no-duplicate`), and the second call always returns
`false`.  (`relationship_count` counts the mirror's `(subject,
object)`-keyed edges, so a pre-existing edge between the same pair
under a different predicate makes the increase 0 — see the
counterexample.) -/
theorem add_relationship_twice_count (st : GraphStoreState) (t : Relationship)
    (hc : st.conn_ok = true)
    (hkey : (st.graph.edges.any (fun ed => ed.1.1 == t.subject && ed.1.2 == t.object)) = false) :
    (GraphStore.stats (GraphStore.add_relationship
        (GraphStore.add_relationship st t).2 t).2).relationship_count =
      (GraphStore.stats st).relationship_count + 1 ∧
    (GraphStore.add_relationship st t).1 =
      !(st.db_triplets.any (fun r =>
        r.subject == t.subject && r.predicate == t.predicate && r.object == t.object)) ∧
    (GraphStore.add_relationship (GraphStore.add_relationship st t).2 t).1 = false := by
  have hc1 : (GraphStore.add_relationship st t).2.conn_ok = true := by
    rw [add_relationship_conn]; exact hc
  obtain ⟨hg1, hr1⟩ := add_relationship_unfold st t hc
  obtain ⟨hg2, hr2⟩ := add_relationship_unfold (GraphStore.add_relationship st t).2 t hc1
  refine ⟨?_, hr1, ?_⟩
  · rw [stats_relationship_count _ (by rw [add_relationship_conn]; exact hc1),
      stats_relationship_count _ hc, hg2, hg1]
    rw [addEdge_edges_length, addEdge_edges_length]
    rw [hkey, addEdge_any_self]
    simp
  · rw [hr2]
    rw [add_relationship_hasTriple st t hc]
    rfl

/-- Witness for `add_relationship_twice_count`: adding `("a", "p1",
"b")` twice to a fresh store. -/
theorem add_relationship_twice_count_witness :
    (emptyGraphStore.conn_ok = true ∧
      (emptyGraphStore.graph.edges.any (fun ed => ed.1.1 == "a" && ed.1.2 == "b")) = false) ∧
    ((GraphStore.stats (GraphStore.add_relationship
        (GraphStore.add_relationship emptyGraphStore (Relationship.mk "a" "p1" "b" none)).2
        (Relationship.mk "a" "p1" "b" none)).2).relationship_count =
      (GraphStore.stats emptyGraphStore).relationship_count + 1 ∧
    (GraphStore.add_relationship emptyGraphStore (Relationship.mk "a" "p1" "b" none)).1 =
      !(emptyGraphStore.db_triplets.any (fun r =>
        r.subject == "a" && r.predicate == "p1" && r.object == "b")) ∧
    (GraphStore.add_relationship
      (GraphStore.add_relationship emptyGraphStore (Relationship.mk "a" "p1" "b" none)).2
      (Relationship.mk "a" "p1" "b" none)).1 = false) :=
  ⟨⟨by decide, by decide⟩,
   add_relationship_twice_count emptyGraphStore (Relationship.mk "a" "p1" "b" none)
     (by decide) (by decide)⟩

/-- Counterexample to claim C3 as stated ("for every triple t, calling
add_relationship(t) twice increases relationship_count by exactly 1"):
starting from a store already holding `("a", "p1", "b")`, adding the
distinct triple `("a", "p2", "b")` twice leaves `relationship_count`
unchanged (still 1), because the NetworkX mirror keys edges by
`(subject, object)` only and `stats` counts mirror edges. -/
theorem add_relationship_twice_count_counterexample :
    ¬ ((GraphStore.stats (GraphStore.add_relationship
          (GraphStore.add_relationship gOneEdge (Relationship.mk "a" "p2" "b" none)).2
          (Relationship.mk "a" "p2" "b" none)).2).relationship_count =
        (GraphStore.stats gOneEdge).relationship_count + 1) := by
  decide

-- =========================================================================
-- Claim C8
-- =========================================================================

/-- `find?` ignores a pointwise modification that neither changes the
predicate's verdict nor the elements the predicate accepts. -/
theorem find?_map_invariant {α : Type} (f : α → α) (p : α → Bool) (l : List α)
    (hp : ∀ x ∈ l, p (f x) = p x) (hfix : ∀ x ∈ l, p x = true → f x = x) :
    (l.map f).find? p = l.find? p := by
  induction l with
  | nil => rfl
  | cons a t ih =>
    simp only [List.map_cons]
    cases h : p a with
    | true =>
      rw [List.find?_cons_of_pos _ (by rw [hp a (List.mem_cons_self a t)]; exact h),
        List.find?_cons_of_pos _ h, hfix a (List.mem_cons_self a t) h]
    | false =>
      rw [List.find?_cons_of_neg _ (by rw [hp a (List.mem_cons_self a t)]; simp [h]),
        List.find?_cons_of_neg _ (by simp [h])]
      exact ih (fun x hx => hp x (List.mem_cons_of_mem _ hx))
        (fun x hx => hfix x (List.mem_cons_of_mem _ hx))

/-- Writing key `k` into the cache does not change lookups of a
different key. -/
theorem cacheUpsert_find?_other (cache : List (String × String)) (k v other : String)
    (hne : other ≠ k) :
    (ScratchpadStore.cacheUpsert cache k v).find? (fun kv => kv.1 == other) =
      cache.find? (fun kv => kv.1 == other) := by
  unfold ScratchpadStore.cacheUpsert
  split
  · apply find?_map_invariant
    · intro x _
      cases hx : (x.1 == k) with
      | true =>
        have hxk : x.1 = k := by simpa using hx
        simp [hx, hxk]
      | false => simp [hx]
    · intro x _ hpx
      rw [if_neg]
      intro hxk
      have h1 : x.1 = k := by simpa using hxk
      have h2 : x.1 = other := by simpa using hpx
      exact hne (h2 ▸ h1)
  · rw [List.find?_append]
    have hnone : List.find? (fun kv => kv.1 == other) [(k, v)] = none := by
      apply List.find?_eq_none.mpr
      intro x hx
      have : x = (k, v) := by simpa using hx
      subst this
      simp [Ne.symm hne]
    rw [hnone, Option.or_none]

/-- The value computed by `_enrich_content` is `pureEnrichVal`. -/
theorem enrich_content_fst (expander : ScratchpadEntry → Option String)
    (cache : List (String × String)) (e : ScratchpadEntry) :
    (ScratchpadStore.enrich_content expander cache e).1 = pureEnrichVal expander cache e := by
  unfold ScratchpadStore.enrich_content pureEnrichVal
  cases cache.find? (fun kv => kv.1 == e.id) with
  | some kv => rfl
  | none => cases expander e with
    | some v => rfl
    | none => rfl

/-- `_enrich_content` only writes the processed entry's own cache key,
so lookups of other ids are unchanged. -/
theorem enrich_content_snd_find? (expander : ScratchpadEntry → Option String)
    (cache : List (String × String)) (e : ScratchpadEntry) (other : String)
    (hne : other ≠ e.id) :
    ((ScratchpadStore.enrich_content expander cache e).2).find? (fun kv => kv.1 == other) =
      cache.find? (fun kv => kv.1 == other) := by
  unfold ScratchpadStore.enrich_content
  cases cache.find? (fun kv => kv.1 == e.id) with
  | some kv => rfl
  | none =>
    cases expander e with
    | some v => exact cacheUpsert_find?_other cache e.id v other hne
    | none => rfl

/-- With duplicate-free entry ids, the cache-threading enrichment loop
acts as an independent per-entry map (each entry's value depends only
on the pre-read cache), and it counts every processed entry. -/
theorem enrichPass_eq_map (expander : ScratchpadEntry → Option String) :
    ∀ (l : List ScratchpadEntry) (cache : List (String × String)),
      (l.map (fun e => e.id)).Nodup →
      (ScratchpadStore.enrichPass expander cache l).1 =
        l.map (fun e => { e with enriched_content := some (pureEnrichVal expander cache e) }) ∧
      (ScratchpadStore.enrichPass expander cache l).2.2 = l.length := by
  intro l
  induction l with
  | nil => intro cache _; exact ⟨rfl, rfl⟩
  | cons e t ih =>
    intro cache hnd
    simp only [List.map_cons, List.nodup_cons] at hnd
    obtain ⟨ih1, ih2⟩ := ih (ScratchpadStore.enrich_content expander cache e).2 hnd.2
    have hother : ∀ x ∈ t, pureEnrichVal expander
        (ScratchpadStore.enrich_content expander cache e).2 x =
        pureEnrichVal expander cache x := by
      intro x hx
      have hne : x.id ≠ e.id := by
        intro h
        exact hnd.1 (List.mem_map.mpr ⟨x, hx, h⟩)
      unfold pureEnrichVal
      rw [enrich_content_snd_find? expander cache e x.id hne]
    have hstep1 : (ScratchpadStore.enrichPass expander cache (e :: t)).1 =
        ({ e with enriched_content := some (ScratchpadStore.enrich_content expander cache e).1 } :
          ScratchpadEntry) ::
          (ScratchpadStore.enrichPass expander
            (ScratchpadStore.enrich_content expander cache e).2 t).1 := rfl
    have hstep2 : (ScratchpadStore.enrichPass expander cache (e :: t)).2.2 =
        (ScratchpadStore.enrichPass expander
          (ScratchpadStore.enrich_content expander cache e).2 t).2.2 + 1 := rfl
    refine ⟨?_, ?_⟩
    · rw [hstep1, enrich_content_fst, ih1, List.map_cons]
      congr 1
      apply List.map_congr_left
      intro x hx
      rw [hother x hx]
    · rw [hstep2, ih2, List.length_cons]

/-- One insertion keeps the list a permutation of consing. -/
theorem insertByCreatedDesc_perm (e : ScratchpadEntry) (l : List ScratchpadEntry) :
    (ScratchpadStore.insertByCreatedDesc e l).Perm (e :: l) := by
  induction l with
  | nil => exact List.Perm.refl _
  | cons x xs ih =>
    unfold ScratchpadStore.insertByCreatedDesc
    split
    · exact List.Perm.refl _
    · exact (ih.cons x).trans (List.Perm.swap e x xs)

/-- The newest-first sort permutes its input. -/
theorem sortByCreatedDesc_perm (l : List ScratchpadEntry) :
    (ScratchpadStore.sortByCreatedDesc l).Perm l := by
  induction l with
  | nil => exact List.Perm.refl _
  | cons e xs ih =>
    exact (insertByCreatedDesc_perm e (ScratchpadStore.sortByCreatedDesc xs)).trans (ih.cons e)

/-- The matched entries of a `read` keep duplicate-free ids. -/
theorem read_matches_nodup (now : Int) (s : ScratchpadState)
    (subject predicate : Option String) (hwf : ScratchpadStore.WF s) :
    ((ScratchpadStore.read_matches now s subject predicate).map (fun e => e.id)).Nodup := by
  have hsub0 : (ScratchpadStore.cleanup_expired now s).entries.Sublist s.entries :=
    List.filter_sublist _
  have hnd0 : ((ScratchpadStore.cleanup_expired now s).entries.map (fun e => e.id)).Nodup :=
    (hsub0.map (fun e => e.id)).nodup hwf.1
  have hperm : ∀ l : List ScratchpadEntry,
      l.Sublist (ScratchpadStore.cleanup_expired now s).entries →
      ((ScratchpadStore.sortByCreatedDesc l).map (fun e => e.id)).Nodup := by
    intro l hs
    exact (((sortByCreatedDesc_perm l).map (fun e => e.id)).nodup_iff).mpr
      ((hs.map _).nodup hnd0)
  unfold ScratchpadStore.read_matches
  cases subject with
  | none =>
    cases predicate with
    | none =>
      try simp only []
      exact hperm _ (List.Sublist.refl _)
    | some p =>
      try simp only []
      by_cases hp : (p != "") = true
      · rw [if_pos hp]
        exact hperm _ (List.filter_sublist _)
      · rw [if_neg hp]
        exact hperm _ (List.Sublist.refl _)
  | some subj =>
    try simp only []
    by_cases hsj : (subj != "") = true
    · rw [if_pos hsj]
      cases predicate with
      | none =>
        try simp only []
        exact hperm _ (List.filter_sublist _)
      | some p =>
        try simp only []
        by_cases hp : (p != "") = true
        · rw [if_pos hp]
          exact hperm _ ((List.filter_sublist _).trans (List.filter_sublist _))
        · rw [if_neg hp]
          exact hperm _ (List.filter_sublist _)
    · rw [if_neg hsj]
      cases predicate with
      | none =>
        try simp only []
        exact hperm _ (List.Sublist.refl _)
      | some p =>
        try simp only []
        by_cases hp : (p != "") = true
        · rw [if_pos hp]
          exact hperm _ (List.filter_sublist _)
        · rw [if_neg hp]
          exact hperm _ (List.Sublist.refl _)

/-- Claim C8 (amended): on a `read` with enrichment requested, when the
expander capability fails for an entry (no cache hit, oracle `none`),
that entry's original `content` is returned unchanged
(`enriched_content` is set to the original content and `content`
itself is untouched) — but, contrary to the claim's second half,
`enriched_count` counts every processed entry, failures included:
it always equals the number of returned entries. -/
theorem read_enrich_spec (cfg : ScratchpadConfig) (expander : ScratchpadEntry → Option String)
    (now : Int) (s : ScratchpadState) (subject predicate : Option String)
    (hwf : ScratchpadStore.WF s) :
    (ScratchpadStore.read cfg expander now s subject predicate true).1.enriched_count =
      (ScratchpadStore.read cfg expander now s subject predicate true).1.entries.length ∧
    (ScratchpadStore.read cfg expander now s subject predicate true).1.entries =
      (ScratchpadStore.read_matches now s subject predicate).map
        (fun e => { e with enriched_content := some (pureEnrichVal expander
          (ScratchpadStore.cleanup_expired now s).enrichment_cache e) }) ∧
    (∀ e ∈ ScratchpadStore.read_matches now s subject predicate,
      (ScratchpadStore.cleanup_expired now s).enrichment_cache.find?
        (fun kv => kv.1 == e.id) = none →
      expander e = none →
      ({ e with enriched_content := some e.content } : ScratchpadEntry) ∈
        (ScratchpadStore.read cfg expander now s subject predicate true).1.entries) := by
  have hbr1 : (ScratchpadStore.read cfg expander now s subject predicate true).1.entries =
      (ScratchpadStore.enrichPass expander
        (ScratchpadStore.cleanup_expired now s).enrichment_cache
        (ScratchpadStore.read_matches now s subject predicate)).1 := rfl
  have hbr2 : (ScratchpadStore.read cfg expander now s subject predicate true).1.enriched_count =
      (ScratchpadStore.enrichPass expander
        (ScratchpadStore.cleanup_expired now s).enrichment_cache
        (ScratchpadStore.read_matches now s subject predicate)).2.2 := rfl
  obtain ⟨hm, hcnt⟩ := enrichPass_eq_map expander
    (ScratchpadStore.read_matches now s subject predicate)
    (ScratchpadStore.cleanup_expired now s).enrichment_cache
    (read_matches_nodup now s subject predicate hwf)
  refine ⟨?_, ?_, ?_⟩
  · rw [hbr1, hbr2, hm, hcnt, List.length_map]
  · rw [hbr1, hm]
  · intro e he hfind hexp
    rw [hbr1, hm]
    apply List.mem_map.mpr
    refine ⟨e, he, ?_⟩
    have hval : pureEnrichVal expander
        (ScratchpadStore.cleanup_expired now s).enrichment_cache e = e.content := by
      unfold pureEnrichVal
      rw [hfind, hexp]
      rfl
    rw [hval]

/-- Witness for `read_enrich_spec`: an always-failing expander over the
one-entry store `sInj` with an empty cache. -/
theorem read_enrich_spec_witness :
    ScratchpadStore.WF sInj ∧
    ((ScratchpadStore.read cfgLen (fun _ => none) 0 sInj none none true).1.enriched_count =
      (ScratchpadStore.read cfgLen (fun _ => none) 0 sInj none none true).1.entries.length ∧
    (ScratchpadStore.read cfgLen (fun _ => none) 0 sInj none none true).1.entries =
      (ScratchpadStore.read_matches 0 sInj none none).map
        (fun e => { e with enriched_content := some (pureEnrichVal (fun _ => none)
          (ScratchpadStore.cleanup_expired 0 sInj).enrichment_cache e) }) ∧
    (∀ e ∈ ScratchpadStore.read_matches 0 sInj none none,
      (ScratchpadStore.cleanup_expired 0 sInj).enrichment_cache.find?
        (fun kv => kv.1 == e.id) = none →
      (fun (_ : ScratchpadEntry) => (none : Option String)) e = none →
      ({ e with enriched_content := some e.content } : ScratchpadEntry) ∈
        (ScratchpadStore.read cfgLen (fun _ => none) 0 sInj none none true).1.entries)) :=
  ⟨by decide, read_enrich_spec cfgLen (fun _ => none) 0 sInj none none (by decide)⟩

/-- Counterexample to claim C8 as stated: the store `sInj` holds one
entry, the cache is empty, and the expander always fails.  The claim
says the failing entry "is not counted in enriched_count" — i.e.
`enriched_count = 0` here — but the code counts every processed entry:
`enriched_count = 1` (while the entry's content is indeed returned
unchanged). -/
theorem read_enrich_spec_counterexample :
    (ScratchpadStore.read cfgLen (fun _ => none) 0 sInj none none true).1.enriched_count ≠ 0 ∧
    (ScratchpadStore.read cfgLen (fun _ => none) 0 sInj none none true).1.enriched_count = 1 ∧
    (ScratchpadStore.read cfgLen (fun _ => none) 0 sInj none none true).1.entries.map
      (fun e => e.content) = ["c"] := by
  refine ⟨by decide, by decide, by decide⟩

-- =========================================================================
-- Claim C9
-- =========================================================================

/-- `ensureNode` only ever appends; existing node rows survive. -/
theorem ensureNode_super (g : NXGraph) (x : String) (p : String × Meta)
    (hp : p ∈ g.nodes) : p ∈ (g.ensureNode x).nodes := by
  unfold NXGraph.ensureNode
  split
  · exact hp
  · exact List.mem_append_left _ hp

/-- Any node row of `ensureNode`'s result is an old row or the fresh
attribute-free node. -/
theorem ensureNode_new (g : NXGraph) (x : String) (p : String × Meta)
    (hp : p ∈ (g.ensureNode x).nodes) : p ∈ g.nodes ∨ p = (x, ([] : Meta)) := by
  unfold NXGraph.ensureNode at hp
  split at hp
  · exact Or.inl hp
  · rcases List.mem_append.mp hp with h | h
    · exact Or.inl h
    · exact Or.inr (by simpa using h)

/-- After `ensureNode x`, `x` is a node id. -/
theorem ensureNode_mem_self (g : NXGraph) (x : String) : x ∈ nodeIds (g.ensureNode x) := by
  unfold NXGraph.ensureNode nodeIds
  split
  · rename_i h
    obtain ⟨n, hn, hx⟩ := List.any_eq_true.mp h
    exact List.mem_map.mpr ⟨n, hn, by simpa using hx⟩
  · rw [List.map_append]
    exact List.mem_append_right _ (by simp)

/-- `addEdge` only changes the edge list relative to the two
`ensureNode` steps. -/
theorem addEdge_nodes (g : NXGraph) (u v : String) (a : Meta) :
    (g.addEdge u v a).nodes = ((g.ensureNode u).ensureNode v).nodes := by
  unfold NXGraph.addEdge
  simp only []
  split <;> rfl

/-- `addEdge` keeps every existing node row. -/
theorem addEdge_nodes_super (g : NXGraph) (u v : String) (a : Meta) (p : String × Meta)
    (hp : p ∈ g.nodes) : p ∈ (g.addEdge u v a).nodes := by
  rw [addEdge_nodes]
  exact ensureNode_super _ _ _ (ensureNode_super _ _ _ hp)

/-- Any node row after `addEdge` is an old row or an attribute-free
auto-created endpoint. -/
theorem addEdge_nodes_new (g : NXGraph) (u v : String) (a : Meta) (p : String × Meta)
    (hp : p ∈ (g.addEdge u v a).nodes) :
    p ∈ g.nodes ∨ p = (u, ([] : Meta)) ∨ p = (v, ([] : Meta)) := by
  rw [addEdge_nodes] at hp
  rcases ensureNode_new _ _ _ hp with h2 | h2
  · rcases ensureNode_new _ _ _ h2 with h3 | h3
    · exact Or.inl h3
    · exact Or.inr (Or.inl h3)
  · exact Or.inr (Or.inr h2)

/-- Both endpoints are node ids after `addEdge`. -/
theorem addEdge_mem_endpoints (g : NXGraph) (u v : String) (a : Meta) :
    u ∈ nodeIds (g.addEdge u v a) ∧ v ∈ nodeIds (g.addEdge u v a) := by
  have hu : u ∈ nodeIds ((g.ensureNode u).ensureNode v) := by
    have := ensureNode_mem_self g u
    obtain ⟨p, hp, hpu⟩ := List.mem_map.mp this
    exact List.mem_map.mpr ⟨p, ensureNode_super _ _ _ hp, hpu⟩
  have hv : v ∈ nodeIds ((g.ensureNode u).ensureNode v) := ensureNode_mem_self _ v
  constructor
  · unfold nodeIds
    rw [addEdge_nodes]
    exact hu
  · unfold nodeIds
    rw [addEdge_nodes]
    exact hv

/-- A duplicate-free list contained in another list with at least one
extra element is strictly shorter. -/
theorem length_lt_of_nodup_subset {α : Type} {rows nodes : List α}
    (hr : rows.Nodup) (hsub : ∀ x ∈ rows, x ∈ nodes)
    (hex : ∃ y ∈ nodes, y ∉ rows) : rows.length < nodes.length := by
  obtain ⟨y, hy, hyn⟩ := hex
  have hnd : (y :: rows).Nodup := List.nodup_cons.mpr ⟨hyn, hr⟩
  have hsub' : (y :: rows) ⊆ nodes := by
    intro z hz
    rcases List.mem_cons.mp hz with rfl | hz'
    · exact hy
    · exact hsub z hz'
  have := (List.subperm_of_subset hnd hsub').length_le
  simpa using this

/-- On a live connection `stats` reports the mirror's node count. -/
theorem stats_entity_count (st : GraphStoreState) (hc : st.conn_ok = true) :
    (GraphStore.stats st).entity_count = st.graph.nodes.length := by
  unfold GraphStore.stats
  simp only [hc, Bool.not_true, Bool.false_eq_true, if_false]

/-- The per-type counts of `stats` sum to the number of durable entity
rows. -/
theorem sumTypeCounts_eq_rows (st : GraphStoreState) (hc : st.conn_ok = true) :
    sumTypeCounts (GraphStore.stats st) = st.db_entities.length := by
  unfold GraphStore.stats
  simp only [hc, Bool.not_true, Bool.false_eq_true, if_false]
  unfold sumTypeCounts GraphStore.groupCounts
  rw [List.map_map]
  have : ((st.db_entities.map (fun r => r.entity_type)).dedup.map
      ((fun kv => kv.2) ∘ (fun t => (t, (st.db_entities.map (fun r => r.entity_type)).count t)))) =
      ((st.db_entities.map (fun r => r.entity_type)).dedup.map
        (fun t => (st.db_entities.map (fun r => r.entity_type)).count t)) := rfl
  rw [this]
  have hcount : ∀ (l : List String),
      (l.dedup.map (fun t => l.count t)).sum = l.length := by
    intro l
    have := List.sum_map_count_dedup_eq_length l
    simpa using this
  rw [hcount, List.length_map]

/-- `add_relationship` leaves the durable entity table untouched. -/
theorem add_relationship_db_entities (st : GraphStoreState) (r : Relationship) :
    (GraphStore.add_relationship st r).2.db_entities = st.db_entities := by
  unfold GraphStore.add_relationship
  split <;> rfl

/-- Claim C9: after any `add_relationship` whose subject or object id
has no durable Entity row (on a live, well-formed store), the mirror
contains nodes for both endpoints, every node whose id has no durable
row carries no attributes, and `stats().entity_count` strictly exceeds
the sum of the per-type counts in `stats().entity_types`; moreover the
two totals agree only when every graph node has a corresponding
durable Entity row. -/
theorem add_relationship_dangling (st : GraphStoreState) (t : Relationship)
    (hwf : GraphStore.GraphWF st) (hc : st.conn_ok = true)
    (hd : t.subject ∉ GraphStore.rowIds st ∨ t.object ∉ GraphStore.rowIds st) :
    (t.subject ∈ nodeIds (GraphStore.add_relationship st t).2.graph ∧
     t.object ∈ nodeIds (GraphStore.add_relationship st t).2.graph) ∧
    (∀ p ∈ (GraphStore.add_relationship st t).2.graph.nodes,
       p.1 ∉ GraphStore.rowIds st → p.2 = ([] : Meta)) ∧
    sumTypeCounts (GraphStore.stats (GraphStore.add_relationship st t).2) <
      (GraphStore.stats (GraphStore.add_relationship st t).2).entity_count ∧
    (∀ st2 : GraphStoreState, GraphStore.GraphWF st2 → st2.conn_ok = true →
      (GraphStore.stats st2).entity_count = sumTypeCounts (GraphStore.stats st2) →
      ∀ n ∈ nodeIds st2.graph, n ∈ GraphStore.rowIds st2) := by
  obtain ⟨hg1, -⟩ := add_relationship_unfold st t hc
  have hc' : (GraphStore.add_relationship st t).2.conn_ok = true := by
    rw [add_relationship_conn]; exact hc
  have hmem := addEdge_mem_endpoints st.graph t.subject t.object
    (mergeAttrs [("predicate", t.predicate)]
      (if pyTruthyMeta t.metadata then t.metadata.getD [] else []))
  have hmemS : t.subject ∈ nodeIds (GraphStore.add_relationship st t).2.graph := by
    rw [hg1]; exact hmem.1
  have hmemO : t.object ∈ nodeIds (GraphStore.add_relationship st t).2.graph := by
    rw [hg1]; exact hmem.2
  have hattrs : ∀ p ∈ (GraphStore.add_relationship st t).2.graph.nodes,
      p.1 ∉ GraphStore.rowIds st → p.2 = ([] : Meta) := by
    intro p hp hnr
    rw [hg1] at hp
    rcases addEdge_nodes_new _ _ _ _ _ hp with h | h | h
    · exact hwf.2.2.2.1 p h hnr
    · rw [h]
    · rw [h]
  refine ⟨⟨hmemS, hmemO⟩, hattrs, ?_, ?_⟩
  · rw [sumTypeCounts_eq_rows _ hc', stats_entity_count _ hc', add_relationship_db_entities]
    have hrowsub : ∀ x ∈ GraphStore.rowIds st,
        x ∈ nodeIds (GraphStore.add_relationship st t).2.graph := by
      intro x hx
      have hx2 : x ∈ nodeIds st.graph := hwf.2.2.1 x hx
      obtain ⟨p, hp, hpx⟩ := List.mem_map.mp hx2
      rw [hg1]
      exact List.mem_map.mpr ⟨p, addEdge_nodes_super _ _ _ _ _ hp, hpx⟩
    have hlt : (GraphStore.rowIds st).length <
        (nodeIds (GraphStore.add_relationship st t).2.graph).length := by
      apply length_lt_of_nodup_subset hwf.2.1 hrowsub
      rcases hd with h | h
      · exact ⟨t.subject, hmemS, h⟩
      · exact ⟨t.object, hmemO, h⟩
    unfold GraphStore.rowIds at hlt
    unfold nodeIds at hlt
    simpa using hlt
  · intro st2 hwf2 hc2 heq n hn
    by_contra hnr
    have hlt : (GraphStore.rowIds st2).length < (nodeIds st2.graph).length :=
      length_lt_of_nodup_subset hwf2.2.1 hwf2.2.2.1 ⟨n, hn, hnr⟩
    rw [stats_entity_count _ hc2, sumTypeCounts_eq_rows _ hc2] at heq
    unfold GraphStore.rowIds at hlt
    unfold nodeIds at hlt
    simp only [List.length_map] at hlt
    omega

/-- Witness for `add_relationship_dangling`: the store holding only
entity `"a"`, plus a relationship to the row-less id `"b"`. -/
theorem add_relationship_dangling_witness :
    (GraphStore.GraphWF gOneEntity ∧ gOneEntity.conn_ok = true ∧
      ((Relationship.mk "a" "p" "b" none).subject ∉ GraphStore.rowIds gOneEntity ∨
       (Relationship.mk "a" "p" "b" none).object ∉ GraphStore.rowIds gOneEntity)) ∧
    (((Relationship.mk "a" "p" "b" none).subject ∈
        nodeIds (GraphStore.add_relationship gOneEntity (Relationship.mk "a" "p" "b" none)).2.graph ∧
      (Relationship.mk "a" "p" "b" none).object ∈
        nodeIds (GraphStore.add_relationship gOneEntity (Relationship.mk "a" "p" "b" none)).2.graph) ∧
    (∀ p ∈ (GraphStore.add_relationship gOneEntity (Relationship.mk "a" "p" "b" none)).2.graph.nodes,
       p.1 ∉ GraphStore.rowIds gOneEntity → p.2 = ([] : Meta)) ∧
    sumTypeCounts (GraphStore.stats
        (GraphStore.add_relationship gOneEntity (Relationship.mk "a" "p" "b" none)).2) <
      (GraphStore.stats
        (GraphStore.add_relationship gOneEntity (Relationship.mk "a" "p" "b" none)).2).entity_count ∧
    (∀ st2 : GraphStoreState, GraphStore.GraphWF st2 → st2.conn_ok = true →
      (GraphStore.stats st2).entity_count = sumTypeCounts (GraphStore.stats st2) →
      ∀ n ∈ nodeIds st2.graph, n ∈ GraphStore.rowIds st2)) :=
  ⟨⟨by decide, by decide, Or.inr (by decide)⟩,
   add_relationship_dangling gOneEntity (Relationship.mk "a" "p" "b" none)
     (by decide) (by decide) (Or.inr (by decide))⟩

-- =========================================================================
-- Claim C6
-- =========================================================================

/-- `addNode` never touches edges. -/
theorem addNode_edges (g : NXGraph) (id : String) (a : Meta) :
    (g.addNode id a).edges = g.edges := by
  unfold NXGraph.addNode
  split <;> rfl

/-- The node-key condition tested by `addNode`/`ensureNode` is node-id
membership. -/
theorem anyNodeKey_iff (g : NXGraph) (x : String) :
    (g.nodes.any (fun n => n.1 == x)) = true ↔ x ∈ nodeIds g := by
  rw [List.any_eq_true]
  unfold nodeIds
  constructor
  · rintro ⟨n, hn, hx⟩
    exact List.mem_map.mpr ⟨n, hn, by simpa using hx⟩
  · intro hx
    obtain ⟨n, hn, hx'⟩ := List.mem_map.mp hx
    exact ⟨n, hn, by simpa using hx'⟩

/-- The edge-key condition tested by `addEdge` is edge-key membership. -/
theorem anyEdgeKey_iff (g : NXGraph) (u v : String) :
    (g.edges.any (fun ed => ed.1.1 == u && ed.1.2 == v)) = true ↔ (u, v) ∈ edgeKeys g := by
  rw [List.any_eq_true]
  unfold edgeKeys
  constructor
  · rintro ⟨ed, hed, hk⟩
    simp only [Bool.and_eq_true, beq_iff_eq] at hk
    refine List.mem_map.mpr ⟨ed, hed, ?_⟩
    exact Prod.ext hk.1 hk.2
  · intro hk
    obtain ⟨ed, hed, hk'⟩ := List.mem_map.mp hk
    refine ⟨ed, hed, ?_⟩
    simp only [Bool.and_eq_true, beq_iff_eq]
    exact ⟨congrArg Prod.fst hk', congrArg Prod.snd hk'⟩

/-- `addNode` either relabels attributes (same keys) or appends one. -/
theorem addNode_nodeIds (g : NXGraph) (id : String) (a : Meta) :
    nodeIds (g.addNode id a) =
      if (g.nodes.any (fun n => n.1 == id)) = true then nodeIds g else nodeIds g ++ [id] := by
  unfold NXGraph.addNode nodeIds
  split
  · show List.map (fun n => n.1)
        (g.nodes.map (fun n => if (n.1 == id) = true then (n.1, mergeAttrs n.2 a) else n)) =
      List.map (fun n => n.1) g.nodes
    rw [List.map_map]
    apply List.map_congr_left
    intro n _
    show (if (n.1 == id) = true then (n.1, mergeAttrs n.2 a) else n).1 = n.1
    split <;> rfl
  · show List.map (fun n => n.1) (g.nodes ++ [(id, a)]) = List.map (fun n => n.1) g.nodes ++ [id]
    rw [List.map_append]
    rfl

/-- `ensureNode` on a present id is the identity. -/
theorem ensureNode_of_mem (g : NXGraph) (x : String) (h : x ∈ nodeIds g) :
    g.ensureNode x = g := by
  unfold NXGraph.ensureNode
  rw [if_pos ((anyNodeKey_iff g x).mpr h)]

/-- `ensureNode` key list. -/
theorem ensureNode_nodeIds (g : NXGraph) (x : String) :
    nodeIds (g.ensureNode x) =
      if (g.nodes.any (fun n => n.1 == x)) = true then nodeIds g else nodeIds g ++ [x] := by
  unfold NXGraph.ensureNode nodeIds
  split
  · rfl
  · show List.map (fun n => n.1) (g.nodes ++ [(x, [])]) = List.map (fun n => n.1) g.nodes ++ [x]
    rw [List.map_append]
    rfl

/-- `addEdge` key lists: node ids grow by the missing endpoints, edge
keys by the missing key; attribute updates change no keys. -/
theorem addEdge_edgeKeys (g : NXGraph) (u v : String) (a : Meta) :
    edgeKeys (g.addEdge u v a) =
      if (g.edges.any (fun ed => ed.1.1 == u && ed.1.2 == v)) = true then edgeKeys g
      else edgeKeys g ++ [(u, v)] := by
  unfold NXGraph.addEdge
  have hE : ((g.ensureNode u).ensureNode v).edges = g.edges := by
    rw [ensureNode_edges, ensureNode_edges]
  simp only [hE]
  unfold edgeKeys
  split
  · show List.map (fun ed => ed.1)
        (g.edges.map (fun ed =>
          if (ed.1.1 == u && ed.1.2 == v) = true then (ed.1, mergeAttrs ed.2 a) else ed)) =
      List.map (fun ed => ed.1) g.edges
    rw [List.map_map]
    apply List.map_congr_left
    intro ed _
    show (if (ed.1.1 == u && ed.1.2 == v) = true then (ed.1, mergeAttrs ed.2 a) else ed).1 = ed.1
    split <;> rfl
  · show List.map (fun ed => ed.1) (g.edges ++ [((u, v), a)]) =
      List.map (fun ed => ed.1) g.edges ++ [(u, v)]
    rw [List.map_append]
    rfl

/-- `addEdge` leaves node keys of `ensureNode ∘ ensureNode`. -/
theorem addEdge_nodeIds (g : NXGraph) (u v : String) (a : Meta) :
    nodeIds (g.addEdge u v a) = nodeIds ((g.ensureNode u).ensureNode v) := by
  unfold nodeIds
  rw [addEdge_nodes]

/-- `add_entity` component equations on a live connection. -/
theorem add_entity_state (st : GraphStoreState) (e : Entity) :
    (GraphStore.add_entity st e).2.conn_ok = st.conn_ok ∧
    (GraphStore.add_entity st e).2.graph.edges = st.graph.edges ∧
    (st.conn_ok = true → (GraphStore.add_entity st e).2.graph =
      st.graph.addNode e.id (mergeAttrs [("entity_type", e.entity_type), ("name", e.name)]
        (if pyTruthyMeta e.metadata then e.metadata.getD [] else []))) := by
  unfold GraphStore.add_entity
  split
  · rename_i h
    refine ⟨rfl, rfl, ?_⟩
    intro hc
    rw [hc] at h
    simp at h
  · refine ⟨rfl, ?_, fun _ => rfl⟩
    rw [addNode_edges]

/-- `applyGOp` with a dead connection changes nothing. -/
theorem applyGOp_conn_false (st : GraphStoreState) (op : GOp) (h : st.conn_ok = false) :
    GraphStore.applyGOp st op = (false, st) := by
  cases op with
  | ent e =>
    show GraphStore.add_entity st e = (false, st)
    unfold GraphStore.add_entity
    rw [if_pos (by rw [h]; rfl)]
  | rel r =>
    show GraphStore.add_relationship st r = (false, st)
    unfold GraphStore.add_relationship
    rw [if_pos (by rw [h]; rfl)]

/-- `applyGOp` preserves the connection flag. -/
theorem applyGOp_conn (st : GraphStoreState) (op : GOp) :
    (GraphStore.applyGOp st op).2.conn_ok = st.conn_ok := by
  cases op with
  | ent e => exact (add_entity_state st e).1
  | rel r => exact add_relationship_conn st r

/-- Key presence is monotone under any mutation. -/
theorem opKeysPresent_mono (st : GraphStoreState) (op op0 : GOp)
    (h : opKeysPresent st op0) : opKeysPresent (GraphStore.applyGOp st op).2 op0 := by
  have hnode : ∀ x, x ∈ nodeIds st.graph → x ∈ nodeIds (GraphStore.applyGOp st op).2.graph := by
    intro x hx
    obtain ⟨p, hp, hpx⟩ := List.mem_map.mp hx
    cases op with
    | ent e =>
      show x ∈ nodeIds (GraphStore.add_entity st e).2.graph
      by_cases hc : st.conn_ok = true
      · rw [(add_entity_state st e).2.2 hc]
        rw [addNode_nodeIds]
        split
        · exact hx
        · exact List.mem_append_left _ hx
      · have hc' : st.conn_ok = false := by
          cases hb : st.conn_ok
          · rfl
          · exact absurd hb hc
        have heq : GraphStore.add_entity st e = (false, st) :=
          applyGOp_conn_false st (GOp.ent e) hc'
        rw [heq]
        exact hx
    | rel r =>
      show x ∈ nodeIds (GraphStore.add_relationship st r).2.graph
      by_cases hc : st.conn_ok = true
      · rw [(add_relationship_unfold st r hc).1]
        exact List.mem_map.mpr ⟨p, addEdge_nodes_super _ _ _ _ _ hp, hpx⟩
      · have hc' : st.conn_ok = false := by
          cases hb : st.conn_ok
          · rfl
          · exact absurd hb hc
        have heq : GraphStore.add_relationship st r = (false, st) :=
          applyGOp_conn_false st (GOp.rel r) hc'
        rw [heq]
        exact hx
  have hedge : ∀ k, k ∈ edgeKeys st.graph → k ∈ edgeKeys (GraphStore.applyGOp st op).2.graph := by
    intro k hk
    cases op with
    | ent e =>
      show k ∈ edgeKeys (GraphStore.add_entity st e).2.graph
      unfold edgeKeys
      rw [(add_entity_state st e).2.1]
      exact hk
    | rel r =>
      show k ∈ edgeKeys (GraphStore.add_relationship st r).2.graph
      by_cases hc : st.conn_ok = true
      · rw [(add_relationship_unfold st r hc).1]
        rw [addEdge_edgeKeys]
        split
        · exact hk
        · exact List.mem_append_left _ hk
      · have hc' : st.conn_ok = false := by
          cases hb : st.conn_ok
          · rfl
          · exact absurd hb hc
        have heq : GraphStore.add_relationship st r = (false, st) :=
          applyGOp_conn_false st (GOp.rel r) hc'
        rw [heq]
        exact hk
  cases op0 with
  | ent e => exact hnode e.id h
  | rel r => exact ⟨hnode r.subject h.1, hnode r.object h.2.1, hedge _ h.2.2⟩

/-- On a live connection every mutation establishes its own keys. -/
theorem opKeysPresent_self (st : GraphStoreState) (op : GOp) (hc : st.conn_ok = true) :
    opKeysPresent (GraphStore.applyGOp st op).2 op := by
  cases op with
  | ent e =>
    show e.id ∈ nodeIds (GraphStore.add_entity st e).2.graph
    rw [(add_entity_state st e).2.2 hc]
    rw [addNode_nodeIds]
    split
    · rename_i h
      exact (anyNodeKey_iff _ _).mp h
    · exact List.mem_append_right _ (by simp)
  | rel r =>
    show opKeysPresent (GraphStore.add_relationship st r).2 (GOp.rel r)
    refine ⟨?_, ?_, ?_⟩
    · rw [(add_relationship_unfold st r hc).1]
      exact (addEdge_mem_endpoints _ _ _ _).1
    · rw [(add_relationship_unfold st r hc).1]
      exact (addEdge_mem_endpoints _ _ _ _).2
    · rw [(add_relationship_unfold st r hc).1]
      exact (anyEdgeKey_iff _ _ _).mp (addEdge_any_self _ _ _ _)

/-- On a live connection a mutation whose keys are already present
changes neither the node count nor the edge count. -/
theorem applyGOp_stable (st : GraphStoreState) (op : GOp) (hc : st.conn_ok = true)
    (h : opKeysPresent st op) :
    (GraphStore.applyGOp st op).2.graph.nodes.length = st.graph.nodes.length ∧
    (GraphStore.applyGOp st op).2.graph.edges.length = st.graph.edges.length := by
  cases op with
  | ent e =>
    have hg := (add_entity_state st e).2.2 hc
    constructor
    · show (GraphStore.add_entity st e).2.graph.nodes.length = _
      rw [hg]
      have h1 : nodeIds (st.graph.addNode e.id
          (mergeAttrs [("entity_type", e.entity_type), ("name", e.name)]
            (if pyTruthyMeta e.metadata then e.metadata.getD [] else []))) = nodeIds st.graph := by
        rw [addNode_nodeIds, if_pos ((anyNodeKey_iff _ _).mpr h)]
      have h2 := congrArg List.length h1
      unfold nodeIds at h2
      simpa using h2
    · show (GraphStore.add_entity st e).2.graph.edges.length = _
      rw [(add_entity_state st e).2.1]
  | rel r =>
    obtain ⟨hs, ho, hk⟩ := h
    have hg := (add_relationship_unfold st r hc).1
    have hens : (st.graph.ensureNode r.subject).ensureNode r.object = st.graph := by
      rw [ensureNode_of_mem _ _ hs, ensureNode_of_mem _ _ ho]
    constructor
    · show (GraphStore.add_relationship st r).2.graph.nodes.length = _
      rw [hg]
      have h1 : nodeIds (st.graph.addEdge r.subject r.object
          (mergeAttrs [("predicate", r.predicate)]
            (if pyTruthyMeta r.metadata then r.metadata.getD [] else []))) = nodeIds st.graph := by
        rw [addEdge_nodeIds, hens]
      have h2 := congrArg List.length h1
      unfold nodeIds at h2
      simpa using h2
    · show (GraphStore.add_relationship st r).2.graph.edges.length = _
      rw [hg]
      rw [addEdge_edges_length, if_pos ((anyEdgeKey_iff _ _ _).mpr hk)]

/-- Peeling one op off `runGOps` (state component). -/
theorem runGOps_cons_state (st : GraphStoreState) (c : GOpC) (rest : List GOpC) :
    (GraphStore.runGOps st (c :: rest)).1 =
      (GraphStore.runGOps (GraphStore.applyGOp st c.op).2 rest).1 := by
  obtain ⟨op, ca⟩ := c
  cases op with
  | ent e => rfl
  | rel r => rfl

/-- The connection flag survives a whole op list. -/
theorem runGOps_conn (l : List GOpC) : ∀ st : GraphStoreState,
    (GraphStore.runGOps st l).1.conn_ok = st.conn_ok := by
  induction l with
  | nil => intro st; rfl
  | cons c rest ih =>
    intro st
    rw [runGOps_cons_state, ih, applyGOp_conn]

/-- Key presence survives a whole op list. -/
theorem runGOps_keys_mono (l : List GOpC) : ∀ (st : GraphStoreState) (op0 : GOp),
    opKeysPresent st op0 → opKeysPresent (GraphStore.runGOps st l).1 op0 := by
  induction l with
  | nil => intro st op0 h; exact h
  | cons c rest ih =>
    intro st op0 h
    rw [runGOps_cons_state]
    exact ih _ _ (opKeysPresent_mono st c.op op0 h)

/-- After running an op list on a live connection, every op's keys are
present in the final state. -/
theorem runGOps_keys_present (l : List GOpC) : ∀ (st : GraphStoreState),
    st.conn_ok = true →
    ∀ c ∈ l, opKeysPresent (GraphStore.runGOps st l).1 c.op := by
  induction l with
  | nil => intro st _ c hc; cases hc
  | cons c0 rest ih =>
    intro st hconn c hcmem
    rw [runGOps_cons_state]
    rcases List.mem_cons.mp hcmem with rfl | hmem
    · exact runGOps_keys_mono rest _ _ (opKeysPresent_self st c.op hconn)
    · exact ih _ (by rw [applyGOp_conn]; exact hconn) c hmem

/-- Running an op list whose keys are all present changes neither
count. -/
theorem runGOps_stable (l : List GOpC) : ∀ (st : GraphStoreState),
    st.conn_ok = true →
    (∀ c ∈ l, opKeysPresent st c.op) →
    (GraphStore.runGOps st l).1.graph.nodes.length = st.graph.nodes.length ∧
    (GraphStore.runGOps st l).1.graph.edges.length = st.graph.edges.length := by
  induction l with
  | nil => intro st _ _; exact ⟨rfl, rfl⟩
  | cons c rest ih =>
    intro st hconn hall
    rw [runGOps_cons_state]
    have hstep := applyGOp_stable st c.op hconn (hall c (List.mem_cons_self c rest))
    have hrest := ih (GraphStore.applyGOp st c.op).2
      (by rw [applyGOp_conn]; exact hconn)
      (fun c' hc' => opKeysPresent_mono st c.op c'.op (hall c' (List.mem_cons_of_mem _ hc')))
    exact ⟨hrest.1.trans hstep.1, hrest.2.trans hstep.2⟩

/-- A dead connection makes the whole run a no-op on the state. -/
theorem runGOps_conn_false (l : List GOpC) : ∀ (st : GraphStoreState),
    st.conn_ok = false → (GraphStore.runGOps st l).1 = st := by
  induction l with
  | nil => intro st _; rfl
  | cons c rest ih =>
    intro st h
    rw [runGOps_cons_state, show (GraphStore.applyGOp st c.op).2 = st from
      congrArg Prod.snd (applyGOp_conn_false st c.op h)]
    exact ih st h

/-- Claim C6: for every batch of records `R`, running
`index_schematics(R)` twice in succession yields the same
`total_entities` and `total_relationships` after the second run as
after the first: every sub-step upserts entities and deduplicates
relationships, so the second run adds no new graph nodes or edges. -/
theorem index_schematics_idempotent (st : GraphStoreState) (R : List Schematic) :
    (GraphStore.index_schematics (GraphStore.index_schematics st R).2 R).1.total_entities =
      (GraphStore.index_schematics st R).1.total_entities ∧
    (GraphStore.index_schematics (GraphStore.index_schematics st R).2 R).1.total_relationships =
      (GraphStore.index_schematics st R).1.total_relationships := by
  have hst2 : (GraphStore.index_schematics st R).2 =
      (GraphStore.runGOps st (GraphStore.indexOps R)).1 := rfl
  have htot : ∀ st' : GraphStoreState,
      (GraphStore.index_schematics st' R).1.total_entities =
        (GraphStore.runGOps st' (GraphStore.indexOps R)).1.graph.nodes.length ∧
      (GraphStore.index_schematics st' R).1.total_relationships =
        (GraphStore.runGOps st' (GraphStore.indexOps R)).1.graph.edges.length :=
    fun st' => ⟨rfl, rfl⟩
  by_cases hc : st.conn_ok = true
  · have hconn1 : (GraphStore.runGOps st (GraphStore.indexOps R)).1.conn_ok = true := by
      rw [runGOps_conn]; exact hc
    have hpres := runGOps_keys_present (GraphStore.indexOps R) st hc
    have hstable := runGOps_stable (GraphStore.indexOps R)
      (GraphStore.runGOps st (GraphStore.indexOps R)).1 hconn1 hpres
    refine ⟨?_, ?_⟩
    · rw [(htot _).1, (htot _).1, hst2]
      exact hstable.1
    · rw [(htot _).2, (htot _).2, hst2]
      exact hstable.2
  · have hc' : st.conn_ok = false := by
      cases hb : st.conn_ok
      · rfl
      · exact absurd hb hc
    have h1 : (GraphStore.runGOps st (GraphStore.indexOps R)).1 = st :=
      runGOps_conn_false _ st hc'
    refine ⟨?_, ?_⟩
    · rw [(htot _).1, (htot _).1, hst2, h1, h1]
    · rw [(htot _).2, (htot _).2, hst2, h1, h1]

-- =========================================================================
-- Claim C5
-- =========================================================================

/-- Undirected adjacency is symmetric. -/
theorem uAdj_symm (g : NXGraph) (u v : String) :
    GraphStore.uAdj g u v = GraphStore.uAdj g v u := by
  unfold GraphStore.uAdj
  apply Bool.eq_iff_iff.mpr
  rw [List.any_eq_true, List.any_eq_true]
  constructor
  · rintro ⟨ed, hed, hp⟩
    rw [Bool.or_comm] at hp
    exact ⟨ed, hed, hp⟩
  · rintro ⟨ed, hed, hp⟩
    rw [Bool.or_comm] at hp
    exact ⟨ed, hed, hp⟩

/-- `uNeighbors` is sound and complete for undirected adjacency. -/
theorem mem_uNeighbors (g : NXGraph) (c v : String) :
    v ∈ GraphStore.uNeighbors g c ↔ GraphStore.uAdj g c v = true := by
  unfold GraphStore.uNeighbors GraphStore.uAdj
  rw [List.mem_append, List.mem_filterMap, List.mem_filterMap, List.any_eq_true]
  constructor
  · rintro (⟨ed, hed, hf⟩ | ⟨ed, hed, hf⟩)
    · by_cases h1 : (ed.1.1 == c) = true
      · rw [if_pos h1] at hf
        injection hf with hv
        refine ⟨ed, hed, ?_⟩
        have hc : ed.1.1 = c := by simpa using h1
        simp [hc, hv]
      · rw [if_neg h1] at hf
        cases hf
    · by_cases h1 : (ed.1.2 == c) = true
      · rw [if_pos h1] at hf
        injection hf with hv
        refine ⟨ed, hed, ?_⟩
        have hc : ed.1.2 = c := by simpa using h1
        simp [hc, hv]
      · rw [if_neg h1] at hf
        cases hf
  · rintro ⟨ed, hed, hp⟩
    simp only [Bool.or_eq_true] at hp
    rcases hp with h | h
    · rw [Bool.and_eq_true] at h
      have h1 : ed.1.1 = c := by simpa using h.1
      have h2 : ed.1.2 = v := by simpa using h.2
      left
      exact ⟨ed, hed, by rw [if_pos (by simp [h1]), h2]⟩
    · rw [Bool.and_eq_true] at h
      have h1 : ed.1.1 = v := by simpa using h.1
      have h2 : ed.1.2 = c := by simpa using h.2
      right
      exact ⟨ed, hed, by rw [if_pos (by simp [h2]), h1]⟩

/-- Characterization of the reversed-walk enumeration: `rwalks g s k`
holds exactly the adjacency chains of `k + 1` nodes ending (in list
order) at `s`. -/
theorem rwalks_mem (g : NXGraph) (s : String) : ∀ (k : Nat) (w : List String),
    w ∈ GraphStore.rwalks g s k ↔
      (w.length = k + 1 ∧ w.getLast? = some s ∧
        List.Chain' (fun u v => GraphStore.uAdj g u v = true) w) := by
  intro k
  induction k with
  | zero =>
    intro w
    constructor
    · intro hw
      have hw' : w = [s] := by simpa [GraphStore.rwalks] using hw
      subst hw'
      exact ⟨rfl, rfl, List.chain'_singleton s⟩
    · rintro ⟨hlen, hlast, -⟩
      obtain ⟨x, hx⟩ := List.length_eq_one.mp hlen
      subst hx
      have : x = s := by simpa using hlast
      subst this
      simp [GraphStore.rwalks]
  | succ k ih =>
    intro w
    constructor
    · intro hw
      simp only [GraphStore.rwalks] at hw
      obtain ⟨w', hw', hmem⟩ := List.mem_flatMap.mp hw
      obtain ⟨hlen', hlast', hchain'⟩ := (ih w').mp hw'
      obtain ⟨c, t, hw'eq⟩ := List.exists_of_length_succ w' hlen'
      subst hw'eq
      simp only [List.mem_map] at hmem
      obtain ⟨v, hv, hw⟩ := hmem
      subst hw
      have hadj : GraphStore.uAdj g v c = true := by
        rw [uAdj_symm]
        exact (mem_uNeighbors g c v).mp hv
      refine ⟨?_, ?_, ?_⟩
      · simp only [List.length_cons] at hlen' ⊢
        omega
      · rw [List.getLast?_cons_cons]
        exact hlast'
      · exact List.chain'_cons.mpr ⟨hadj, hchain'⟩
    · rintro ⟨hlen, hlast, hchain⟩
      obtain ⟨v, t0, hw⟩ := List.exists_of_length_succ w hlen
      subst hw
      have hlen0 : t0.length = k + 1 := by
        simp only [List.length_cons] at hlen
        omega
      obtain ⟨c, t, ht⟩ := List.exists_of_length_succ t0 hlen0
      subst ht
      have hadj : GraphStore.uAdj g v c = true := (List.chain'_cons.mp hchain).1
      simp only [GraphStore.rwalks]
      apply List.mem_flatMap.mpr
      refine ⟨c :: t, ?_, ?_⟩
      · apply (ih (c :: t)).mpr
        refine ⟨hlen0, ?_, (List.chain'_cons.mp hchain).2⟩
        rw [List.getLast?_cons_cons] at hlast
        exact hlast
      · simp only [List.mem_map]
        refine ⟨v, ?_, rfl⟩
        rw [mem_uNeighbors, uAdj_symm]
        exact hadj

/-- If every probed index answers `none`, the scan answers `none`. -/
theorem firstSomeFrom_eq_none {α : Type} (f : Nat → Option α) :
    ∀ (fuel start : Nat), (∀ j, start ≤ j → j < start + fuel → f j = none) →
      GraphStore.firstSomeFrom f start fuel = none := by
  intro fuel
  induction fuel with
  | zero => intro start _; rfl
  | succ fuel ih =>
    intro start h
    have h0 : f start = none := h start (le_refl _) (by omega)
    simp only [GraphStore.firstSomeFrom, h0]
    exact ih (start + 1) (fun j hj1 hj2 => h j (by omega) (by omega))

/-- A successful scan yields the first successful probe. -/
theorem firstSomeFrom_eq_some {α : Type} (f : Nat → Option α) :
    ∀ (fuel start : Nat) (y : α), GraphStore.firstSomeFrom f start fuel = some y →
      ∃ k, start ≤ k ∧ k < start + fuel ∧ f k = some y ∧
        (∀ j, start ≤ j → j < k → f j = none) := by
  intro fuel
  induction fuel with
  | zero => intro start y h; cases h
  | succ fuel ih =>
    intro start y h
    cases h0 : f start with
    | some z =>
      simp only [GraphStore.firstSomeFrom, h0] at h
      injection h with hz
      subst hz
      exact ⟨start, le_refl _, by omega, h0, fun j hj1 hj2 => by omega⟩
    | none =>
      simp only [GraphStore.firstSomeFrom, h0] at h
      obtain ⟨k, hk1, hk2, hk3, hk4⟩ := ih (start + 1) y h
      refine ⟨k, by omega, by omega, hk3, ?_⟩
      intro j hj1 hj2
      by_cases hj : j = start
      · rw [hj]; exact h0
      · exact hk4 j (by omega) hj2

/-- If some probed index answers, the scan answers. -/
theorem firstSomeFrom_ne_none {α : Type} (f : Nat → Option α) :
    ∀ (fuel start k : Nat), start ≤ k → k < start + fuel → f k ≠ none →
      GraphStore.firstSomeFrom f start fuel ≠ none := by
  intro fuel
  induction fuel with
  | zero => intro start k h1 h2 _; omega
  | succ fuel ih =>
    intro start k h1 h2 hk
    cases h0 : f start with
    | some z => simp [GraphStore.firstSomeFrom, h0]
    | none =>
      simp only [GraphStore.firstSomeFrom, h0]
      have hks : k ≠ start := by
        intro h
        rw [h] at hk
        exact hk h0
      exact ih (start + 1) k (by omega) (by omega) hk

/-- A list with a duplicate splits around the repeated element. -/
theorem not_nodup_decomp {α : Type} : ∀ (l : List α), ¬ l.Nodup →
    ∃ (xs : List α) (x : α) (ys zs : List α), l = xs ++ x :: (ys ++ x :: zs) := by
  intro l
  induction l with
  | nil => intro h; exact absurd List.nodup_nil h
  | cons a t ih =>
    intro h
    by_cases ha : a ∈ t
    · obtain ⟨s1, t1, ht⟩ := List.append_of_mem ha
      exact ⟨[], a, s1, t1, by rw [ht]; rfl⟩
    · have hnd : ¬ t.Nodup := by
        intro hnd
        exact h (List.nodup_cons.mpr ⟨ha, hnd⟩)
      obtain ⟨xs, x, ys, zs, ht⟩ := ih hnd
      exact ⟨a :: xs, x, ys, zs, by rw [ht]; rfl⟩

/-- The head of `xs ++ x :: u` does not depend on `u`. -/
theorem head?_append_cons {α : Type} (xs : List α) (x : α) (u v : List α) :
    (xs ++ x :: u).head? = (xs ++ x :: v).head? := by
  cases xs <;> rfl

/-- The last element of `l ++ x :: m` is the last of `x :: m`. -/
theorem getLast?_append_cons {α : Type} (l : List α) (x : α) (m : List α) :
    (l ++ x :: m).getLast? = (x :: m).getLast? := by
  rw [List.getLast?_append]
  cases h : (x :: m).getLast? with
  | none =>
    rw [List.getLast?_eq_none_iff] at h
    cases h
  | some y => rfl

/-- Cutting the cycle between two occurrences of `x` preserves the
chain property. -/
theorem chain'_splice {α : Type} (R : α → α → Prop) (xs : List α) (x : α) (ys zs : List α)
    (h : List.Chain' R (xs ++ x :: (ys ++ x :: zs))) :
    List.Chain' R (xs ++ x :: zs) := by
  have hassoc : xs ++ x :: (ys ++ x :: zs) = xs ++ ((x :: ys) ++ (x :: zs)) := by simp
  rw [hassoc] at h
  obtain ⟨h1, h2, h3⟩ := List.chain'_append.mp h
  obtain ⟨h4, h5, h6⟩ := List.chain'_append.mp h2
  apply List.chain'_append.mpr
  refine ⟨h1, h5, ?_⟩
  intro p hp q hq
  have hq' : x = q := by simpa using hq
  subst hq'
  exact h3 p hp x (by simp)

/-- Every adjacency chain between two endpoints contains a
duplicate-free chain between the same endpoints, no longer than it. -/
theorem exists_nodup_chain {α : Type} (R : α → α → Prop) :
    ∀ (n : Nat) (w : List α), w.length ≤ n → ∀ (a b : α),
      w.head? = some a → w.getLast? = some b → List.Chain' R w →
      ∃ w', w'.head? = some a ∧ w'.getLast? = some b ∧ List.Chain' R w' ∧
        w'.Nodup ∧ w'.length ≤ w.length := by
  intro n
  induction n with
  | zero =>
    intro w hw a b hh _ _
    have hnil : w = [] := List.length_eq_zero.mp (Nat.le_zero.mp hw)
    subst hnil
    cases hh
  | succ n ih =>
    intro w hw a b hh hl hc
    by_cases hnd : w.Nodup
    · exact ⟨w, hh, hl, hc, hnd, le_refl _⟩
    · obtain ⟨xs, x, ys, zs, heq⟩ := not_nodup_decomp w hnd
      subst heq
      have hh' : (xs ++ x :: zs).head? = some a := by
        rw [head?_append_cons xs x zs (ys ++ x :: zs)]
        exact hh
      have hl' : (xs ++ x :: zs).getLast? = some b := by
        rw [getLast?_append_cons xs x zs]
        rw [getLast?_append_cons xs x (ys ++ x :: zs)] at hl
        have hx : (x :: (ys ++ x :: zs)) = (x :: ys) ++ (x :: zs) := by simp
        rw [hx, getLast?_append_cons (x :: ys) x zs] at hl
        exact hl
      have hc' : List.Chain' R (xs ++ x :: zs) := chain'_splice R xs x ys zs hc
      have hlen : (xs ++ x :: zs).length ≤ n := by
        simp only [List.length_append, List.length_cons] at hw ⊢
        omega
      obtain ⟨w', h1, h2, h3, h4, h5⟩ := ih (xs ++ x :: zs) hlen a b hh' hl' hc'
      refine ⟨w', h1, h2, h3, h4, ?_⟩
      simp only [List.length_append, List.length_cons] at h5 ⊢
      omega

/-- Each member of an adjacency chain is the whole chain or touches an
edge. -/
theorem chain'_mem_rel {α : Type} (R : α → α → Prop) :
    ∀ (w : List α), List.Chain' R w → ∀ x ∈ w, w = [x] ∨ ∃ y, R x y ∨ R y x := by
  intro w
  induction w with
  | nil => intro _ x hx; cases hx
  | cons u t ih =>
    intro hc x hx
    cases t with
    | nil =>
      rcases List.mem_cons.mp hx with rfl | h
      · exact Or.inl rfl
      · cases h
    | cons v t' =>
      have hr : R u v := (List.chain'_cons.mp hc).1
      rcases List.mem_cons.mp hx with rfl | h
      · exact Or.inr ⟨v, Or.inl hr⟩
      · rcases ih (List.chain'_cons.mp hc).2 x h with heq | hex
        · have hxv : x = v := by
            injection heq with h1 _
            exact h1.symm
          subst hxv
          exact Or.inr ⟨u, Or.inr hr⟩
        · exact Or.inr hex

/-- In a well-formed store, adjacent ids are node ids. -/
theorem uAdj_mem_nodes (st : GraphStoreState) (hwf : GraphStore.GraphWF st) (u v : String)
    (h : GraphStore.uAdj st.graph u v = true) :
    u ∈ nodeIds st.graph ∧ v ∈ nodeIds st.graph := by
  unfold GraphStore.uAdj at h
  obtain ⟨ed, hed, hp⟩ := List.any_eq_true.mp h
  have hend := hwf.2.2.2.2 ed hed
  simp only [Bool.or_eq_true, Bool.and_eq_true] at hp
  rcases hp with ⟨h1, h2⟩ | ⟨h1, h2⟩
  · have e1 : ed.1.1 = u := by simpa using h1
    have e2 : ed.1.2 = v := by simpa using h2
    rw [e1, e2] at hend
    exact hend
  · have e1 : ed.1.1 = v := by simpa using h1
    have e2 : ed.1.2 = u := by simpa using h2
    rw [e1, e2] at hend
    exact ⟨hend.2, hend.1⟩

/-- In a well-formed store, every node of a walk that starts at a node
id is a node id. -/
theorem walk_mem_nodes (st : GraphStoreState) (hwf : GraphStore.GraphWF st) (a : String)
    (ha : a ∈ nodeIds st.graph) (w : List String) (hh : w.head? = some a)
    (hc : List.Chain' (fun u v => GraphStore.uAdj st.graph u v = true) w) :
    ∀ x ∈ w, x ∈ nodeIds st.graph := by
  intro x hx
  rcases chain'_mem_rel _ w hc x hx with heq | ⟨y, hy | hy⟩
  · rw [heq] at hh
    have : x = a := by simpa using hh
    rw [this]
    exact ha
  · exact (uAdj_mem_nodes st hwf x y hy).1
  · exact (uAdj_mem_nodes st hwf y x hy).2

/-- Decomposing a successful probe. -/
theorem spProbe_eq_some (g : NXGraph) (a b : String) (k : Nat) (p : List String)
    (h : spProbe g a b k = some p) :
    ∃ w, w ∈ GraphStore.rwalks g a k ∧ w.head? = some b ∧ p = w.reverse := by
  unfold spProbe at h
  obtain ⟨w, hw, hrev⟩ := Option.map_eq_some'.mp h
  have hmem := List.mem_of_find?_eq_some hw
  have hpred := List.find?_some hw
  have hhead : w.head? = some b := by simpa using hpred
  exact ⟨w, hmem, hhead, hrev.symm⟩

/-- A witnessing walk forces the probe to answer. -/
theorem spProbe_ne_none (g : NXGraph) (a b : String) (k : Nat)
    (h : ∃ w ∈ GraphStore.rwalks g a k, w.head? = some b) :
    spProbe g a b k ≠ none := by
  obtain ⟨w, hw, hh⟩ := h
  unfold spProbe
  have hsome : ((GraphStore.rwalks g a k).find? (fun w => w.head? == some b)).isSome = true :=
    List.find?_isSome.mpr ⟨w, hw, by simp [hh]⟩
  intro hcon
  rw [Option.map_eq_none'] at hcon
  rw [hcon] at hsome
  cases hsome

/-- `shortest_path` with an absent endpoint. -/
theorem shortest_path_eq_none_of_absent (st : GraphStoreState) (a b : String)
    (h : a ∉ nodeIds st.graph ∨ b ∉ nodeIds st.graph) :
    GraphStore.shortest_path st a b = none := by
  unfold GraphStore.shortest_path
  have hcond : (!((nodeIds st.graph).contains a) || !((nodeIds st.graph).contains b)) = true := by
    rcases h with h | h
    · have hc : ((nodeIds st.graph).contains a) = false := by simpa using h
      rw [hc]
      rfl
    · have hc : ((nodeIds st.graph).contains b) = false := by simpa using h
      rw [hc]
      simp
  rw [if_pos hcond]

/-- With both endpoints present, `shortest_path` is the iterative
deepening scan. -/
theorem shortest_path_eq_scan (st : GraphStoreState) (a b : String)
    (ha : a ∈ nodeIds st.graph) (hb : b ∈ nodeIds st.graph) :
    GraphStore.shortest_path st a b =
      GraphStore.firstSomeFrom (spProbe st.graph a b) 0 (nodeIds st.graph).length := by
  unfold GraphStore.shortest_path
  have h1 : ((nodeIds st.graph).contains a) = true := by simpa using ha
  have h2 : ((nodeIds st.graph).contains b) = true := by simpa using hb
  have hcond : (!((nodeIds st.graph).contains a) || !((nodeIds st.graph).contains b)) = false := by
    rw [h1, h2]
    rfl
  rw [if_neg (by rw [hcond]; exact Bool.false_ne_true)]
  rfl

/-- A successful probe at the scan start answers immediately. -/
theorem firstSomeFrom_start_some {α : Type} (f : Nat → Option α) (start fuel : Nat) (y : α)
    (hf : f start = some y) (hfuel : 0 < fuel) :
    GraphStore.firstSomeFrom f start fuel = some y := by
  cases fuel with
  | zero => omega
  | succ n => simp [GraphStore.firstSomeFrom, hf]

/-- `shortest_path` from a present node to itself is the singleton
path. -/
theorem shortest_path_self (st : GraphStoreState) (a : String)
    (ha : a ∈ nodeIds st.graph) :
    GraphStore.shortest_path st a a = some [a] := by
  rw [shortest_path_eq_scan st a a ha ha]
  have hne : nodeIds st.graph ≠ [] := by
    intro h0
    rw [h0] at ha
    cases ha
  have hpos : 0 < (nodeIds st.graph).length := List.length_pos.mpr hne
  apply firstSomeFrom_start_some _ _ _ _ _ hpos
  show ((GraphStore.rwalks st.graph a 0).find? (fun w => w.head? == some a)).map
      List.reverse = some [a]
  rw [show GraphStore.rwalks st.graph a 0 = [[a]] from rfl]
  rw [List.find?_cons_of_pos _ (by simp)]
  rfl

/-- Any path returned by `shortest_path` is an undirected walk from
source to target and has the fewest nodes among all such walks. -/
theorem shortest_path_some_spec (st : GraphStoreState) (a b : String) (p : List String)
    (h : GraphStore.shortest_path st a b = some p) :
    UWalk st.graph a b p ∧ ∀ q, UWalk st.graph a b q → p.length ≤ q.length := by
  by_cases ha : a ∈ nodeIds st.graph
  case neg =>
    rw [shortest_path_eq_none_of_absent st a b (Or.inl ha)] at h
    cases h
  by_cases hb : b ∈ nodeIds st.graph
  case neg =>
    rw [shortest_path_eq_none_of_absent st a b (Or.inr hb)] at h
    cases h
  rw [shortest_path_eq_scan st a b ha hb] at h
  obtain ⟨k, hk0, hkn, hfk, hprev⟩ := firstSomeFrom_eq_some _ _ _ _ h
  obtain ⟨w, hwmem, hwhead, hpw⟩ := spProbe_eq_some _ _ _ _ _ hfk
  obtain ⟨hwlen, hwlast, hwchain⟩ := (rwalks_mem st.graph a k w).mp hwmem
  subst hpw
  constructor
  · refine ⟨?_, ?_, ?_⟩
    · rw [List.head?_reverse]
      exact hwlast
    · rw [List.getLast?_reverse]
      exact hwhead
    · rw [List.chain'_reverse]
      apply hwchain.imp
      intro u v huv
      show GraphStore.uAdj st.graph v u = true
      rw [← uAdj_symm]
      exact huv
  · intro q hq
    obtain ⟨hqh, hql, hqc⟩ := hq
    have hqne : q ≠ [] := by
      intro h0
      rw [h0] at hqh
      cases hqh
    have hqpos : 0 < q.length := List.length_pos.mpr hqne
    have hrev : q.reverse ∈ GraphStore.rwalks st.graph a (q.length - 1) := by
      apply (rwalks_mem _ _ _ _).mpr
      refine ⟨by rw [List.length_reverse]; omega, ?_, ?_⟩
      · rw [List.getLast?_reverse]
        exact hqh
      · rw [List.chain'_reverse]
        apply hqc.imp
        intro u v huv
        show GraphStore.uAdj st.graph v u = true
        rw [← uAdj_symm]
        exact huv
    have hne : spProbe st.graph a b (q.length - 1) ≠ none :=
      spProbe_ne_none _ _ _ _ ⟨q.reverse, hrev, by rw [List.head?_reverse]; exact hql⟩
    by_cases hlt : q.length - 1 < k
    · exact absurd (hprev _ (Nat.zero_le _) hlt) hne
    · rw [List.length_reverse, hwlen]
      omega

/-- When both endpoints are present and an undirected walk connects
them, `shortest_path` answers. -/
theorem shortest_path_exists_some (st : GraphStoreState) (hwf : GraphStore.GraphWF st)
    (a b : String) (ha : a ∈ nodeIds st.graph) (hb : b ∈ nodeIds st.graph)
    (hex : ∃ q, UWalk st.graph a b q) :
    ∃ p, GraphStore.shortest_path st a b = some p := by
  obtain ⟨q, hqh, hql, hqc⟩ := hex
  obtain ⟨w, h1, h2, h3, h4, h5⟩ :=
    exists_nodup_chain (fun u v => GraphStore.uAdj st.graph u v = true)
      q.length q (le_refl _) a b hqh hql hqc
  have hsub : ∀ x ∈ w, x ∈ nodeIds st.graph := walk_mem_nodes st hwf a ha w h1 h3
  have hlenb : w.length ≤ (nodeIds st.graph).length :=
    (List.subperm_of_subset h4 hsub).length_le
  have hwne : w ≠ [] := by
    intro h0
    rw [h0] at h1
    cases h1
  have hwpos : 0 < w.length := List.length_pos.mpr hwne
  have hrev : w.reverse ∈ GraphStore.rwalks st.graph a (w.length - 1) := by
    apply (rwalks_mem _ _ _ _).mpr
    refine ⟨by rw [List.length_reverse]; omega, ?_, ?_⟩
    · rw [List.getLast?_reverse]
      exact h1
    · rw [List.chain'_reverse]
      apply h3.imp
      intro u v huv
      show GraphStore.uAdj st.graph v u = true
      rw [← uAdj_symm]
      exact huv
  have hnz : spProbe st.graph a b (w.length - 1) ≠ none :=
    spProbe_ne_none _ _ _ _ ⟨w.reverse, hrev, by rw [List.head?_reverse]; exact h2⟩
  have hall : GraphStore.firstSomeFrom (spProbe st.graph a b) 0
      (nodeIds st.graph).length ≠ none :=
    firstSomeFrom_ne_none _ _ _ (w.length - 1) (Nat.zero_le _) (by omega) hnz
  rw [shortest_path_eq_scan st a b ha hb]
  cases hsc : GraphStore.firstSomeFrom (spProbe st.graph a b) 0
      (nodeIds st.graph).length with
  | none => exact absurd hsc hall
  | some p => exact ⟨p, rfl⟩

/-- C5: For every well-formed graph store and all ids `a`, `b`:
`shortest_path(x, x)` returns `[x]` for every present node `x`; it
returns `none` when either endpoint is absent or when no undirected
walk connects `a` to `b`; every returned path is an undirected walk
from `a` to `b` of minimum node count among all such walks; and when
both endpoints are present and some undirected walk connects them, a
path is returned. -/
theorem shortest_path_spec (st : GraphStoreState) (hwf : GraphStore.GraphWF st)
    (a b : String) :
    (a ∈ nodeIds st.graph → GraphStore.shortest_path st a a = some [a]) ∧
    (a ∉ nodeIds st.graph ∨ b ∉ nodeIds st.graph →
      GraphStore.shortest_path st a b = none) ∧
    ((¬ ∃ q, UWalk st.graph a b q) → GraphStore.shortest_path st a b = none) ∧
    (∀ p, GraphStore.shortest_path st a b = some p →
      UWalk st.graph a b p ∧ ∀ q, UWalk st.graph a b q → p.length ≤ q.length) ∧
    (a ∈ nodeIds st.graph → b ∈ nodeIds st.graph →
      (∃ q, UWalk st.graph a b q) →
      ∃ p, GraphStore.shortest_path st a b = some p) := by
  refine ⟨fun ha => shortest_path_self st a ha,
          fun h => shortest_path_eq_none_of_absent st a b h,
          ?_,
          fun p hp => shortest_path_some_spec st a b p hp,
          fun ha hb hex => shortest_path_exists_some st hwf a b ha hb hex⟩
  intro hnex
  cases hsp : GraphStore.shortest_path st a b with
  | none => rfl
  | some p => exact absurd ⟨p, (shortest_path_some_spec st a b p hsp).1⟩ hnex

/-- The shortest-path specification instantiated on the store holding
the single edge `a → b`. -/
theorem shortest_path_spec_witness :
    GraphStore.GraphWF gOneEdge ∧
    (("a" ∈ nodeIds gOneEdge.graph →
        GraphStore.shortest_path gOneEdge "a" "a" = some ["a"]) ∧
     ("a" ∉ nodeIds gOneEdge.graph ∨ "b" ∉ nodeIds gOneEdge.graph →
        GraphStore.shortest_path gOneEdge "a" "b" = none) ∧
     ((¬ ∃ q, UWalk gOneEdge.graph "a" "b" q) →
        GraphStore.shortest_path gOneEdge "a" "b" = none) ∧
     (∀ p, GraphStore.shortest_path gOneEdge "a" "b" = some p →
        UWalk gOneEdge.graph "a" "b" p ∧
        ∀ q, UWalk gOneEdge.graph "a" "b" q → p.length ≤ q.length) ∧
     ("a" ∈ nodeIds gOneEdge.graph → "b" ∈ nodeIds gOneEdge.graph →
        (∃ q, UWalk gOneEdge.graph "a" "b" q) →
        ∃ p, GraphStore.shortest_path gOneEdge "a" "b" = some p)) :=
  ⟨by decide, shortest_path_spec gOneEdge (by decide) "a" "b"⟩
